import Mathlib

/-!
The release-decision engine of go-semantic-release.

A shallow embedding of `internal/calculator/calculator.go` (the version
calculator) together with the parts of the Go runtime and of the
`github.com/Masterminds/semver` library (v1) that the calculator calls, and a
model of the commit classifier.

Go `string`s are Lean `String`s; character-level helpers work on the
underlying `List Char`.  Go `int`/`int64` values are mathematical integers
wrapped explicitly into the 64-bit two's-complement range.
-/

set_option linter.dupNamespace false

namespace SemanticRelease

/-! ## Go runtime: integers and strings -/

/-- Largest `int64`. -/
def maxInt64 : Int := 2 ^ 63 - 1

/-- Two's-complement wrap of a mathematical integer into the `int64` range:
the value Go stores for an `int64` (or 64-bit `int`) arithmetic result. -/
def wrapInt64 (x : Int) : Int := (x + 2 ^ 63) % 2 ^ 64 - 2 ^ 63

/-- Go `strings.HasPrefix(s, prefix)`. -/
def HasPrefix (s pre : String) : Bool := pre.data.isPrefixOf s.data

/-- Cut a character list at every occurrence of `sep`; the result always has
at least one piece (the empty list yields one empty piece). -/
def splitOnChar (sep : Char) : List Char → List (List Char)
  | [] => [[]]
  | c :: cs =>
    if c = sep then [] :: splitOnChar sep cs
    else
      match splitOnChar sep cs with
      | [] => [[c]]
      | p :: ps => (c :: p) :: ps

/-- Go `strings.Split(s, ".")`. -/
def SplitDot (s : String) : List String := (splitOnChar '.' s.data).map String.mk

/-- Decimal digits of `n`, most significant first; `fuel` bounds the number of
digits produced. -/
def decDigits : Nat → Nat → List Char
  | 0, _ => []
  | fuel + 1, n =>
    if n < 10 then [Nat.digitChar n]
    else decDigits fuel (n / 10) ++ [Nat.digitChar (n % 10)]

/-- Canonical decimal text of a natural number. -/
def natToDec (n : Nat) : List Char := decDigits (n + 1) n

/-- Go `strconv.Itoa(i)`: canonical decimal text, with a leading `-` for a
negative value. -/
def Itoa (i : Int) : String :=
  match i with
  | Int.ofNat n => String.mk (natToDec n)
  | Int.negSucc n => String.mk ('-' :: natToDec (n + 1))

/-- Read a run of ASCII decimal digits, accumulating into `acc`; `none` when a
character is not a digit. -/
def parseDigits (acc : Nat) : List Char → Option Nat
  | [] => some acc
  | c :: cs =>
    if c.isDigit then parseDigits (acc * 10 + (c.toNat - 48)) cs else none

/-- Unsigned part of `strconv.Atoi`: at least one digit, digits only. -/
def parseUnsigned (cs : List Char) : Option Nat :=
  match cs with
  | [] => none
  | _ :: _ => parseDigits 0 cs

/-- Go `strconv.Atoi(s)` on a 64-bit platform: an optional sign followed by
one or more decimal digits, the value within the `int64` range.  `none` stands
for a non-nil error (syntax or range). -/
def Atoi (s : String) : Option Int :=
  match s.data with
  | [] => none
  | c :: cs =>
    if c = '-' then
      match parseUnsigned cs with
      | some n => if n ≤ 2 ^ 63 then some (-(n : Int)) else none
      | none => none
    else
      match parseUnsigned (if c = '+' then cs else c :: cs) with
      | some n => if n < 2 ^ 63 then some (n : Int) else none
      | none => none

/-! ## `semver.Version` (Masterminds/semver v1) -/

/-- The library's `Version` struct: the numeric triple (`int64` fields), the
pre-release label, the build metadata and the text the version was read
from. -/
structure Version where
  major : Int
  minor : Int
  patch : Int
  pre : String
  metadata : String
  original : String
  deriving DecidableEq, Repr

/-- Errors of the library; `SetPrerelease` can only raise
`ErrInvalidPrerelease`. -/
inductive SemverError where
  | ErrInvalidPrerelease
  deriving DecidableEq, Repr

/-- `Version.Prerelease()`. -/
def Version.Prerelease (v : Version) : String := v.pre

/-- The method `Version.String()` (named `StringOf` here, `String` being the
type): `MAJOR.MINOR.PATCH`, then `-LABEL` and `+METADATA`
when present. -/
def Version.StringOf (v : Version) : String :=
  let base := Itoa v.major ++ "." ++ Itoa v.minor ++ "." ++ Itoa v.patch
  let withPre := if v.pre ≠ "" then base ++ "-" ++ v.pre else base
  if v.metadata ≠ "" then withPre ++ "+" ++ v.metadata else withPre

/-- The character class `[0-9A-Za-z\-]` of the library's regular
expressions. -/
def isPrereleaseChar (c : Char) : Bool := c.isAlphanum || c == '-'

/-- One dot-separated identifier, `[0-9A-Za-z\-]+`. -/
def isIdentifier (p : List Char) : Bool := !p.isEmpty && p.all isPrereleaseChar

/-- `validPrereleaseRegex.MatchString(pre)` for the library's
`^([0-9A-Za-z\-]+(\.[0-9A-Za-z\-]+)*)$`: one or more dot-separated
identifiers. -/
def validPrerelease (pre : String) : Bool :=
  (splitOnChar '.' pre.data).all isIdentifier

/-- `Version.originalVPrefix()`: the `v` the original text started with, if
any. -/
def Version.originalVPrefix (v : Version) : String :=
  match v.original.data with
  | 'v' :: _ => "v"
  | _ => ""

/-- `Version.SetPrerelease(pre)`: a copy of `v` carrying the label `pre`; a
non-empty label the regular expression rejects leaves the copy unchanged and
raises `ErrInvalidPrerelease`.  Go returns both the version and the error. -/
def Version.SetPrerelease (v : Version) (pre : String) : Version × Option SemverError :=
  if pre.length > 0 ∧ validPrerelease pre = false then
    (v, some SemverError.ErrInvalidPrerelease)
  else
    let vNext := { v with pre := pre }
    ({ vNext with original := v.originalVPrefix ++ "" ++ vNext.StringOf }, none)

/-- `Version.IncPatch()`.  The library documents it so: a version without
pre-release information has label and metadata unset and its patch number
incremented; a version with pre-release information has both unset and keeps
its current patch number (a pre-release precedes its own release). -/
def Version.IncPatch (v : Version) : Version :=
  let vNext :=
    if v.pre ≠ "" then { v with metadata := "", pre := "" }
    else { v with metadata := "", pre := "", patch := wrapInt64 (v.patch + 1) }
  { vNext with original := v.originalVPrefix ++ "" ++ vNext.StringOf }

/-- `Version.IncMinor()`: patch set to 0, minor incremented, label and
metadata dropped. -/
def Version.IncMinor (v : Version) : Version :=
  let vNext := { v with metadata := "", pre := "", patch := 0,
                        minor := wrapInt64 (v.minor + 1) }
  { vNext with original := v.originalVPrefix ++ "" ++ vNext.StringOf }

/-- `Version.IncMajor()`: minor and patch set to 0, major incremented, label
and metadata dropped. -/
def Version.IncMajor (v : Version) : Version :=
  let vNext := { v with metadata := "", pre := "", patch := 0, minor := 0,
                        major := wrapInt64 (v.major + 1) }
  { vNext with original := v.originalVPrefix ++ "" ++ vNext.StringOf }

/-- The invariant of every `Version` the library hands out (its fields are
private and every constructor validates): the label and the metadata are empty
or match `validPrereleaseRegex`. -/
def Version.WellFormed (v : Version) : Prop :=
  (v.pre = "" ∨ validPrerelease v.pre = true) ∧
  (v.metadata = "" ∨ validPrerelease v.metadata = true)

instance (v : Version) : Decidable v.WellFormed := by
  unfold Version.WellFormed; infer_instance

/-! ## `shared` data model -/

/-- The type `shared.Release`: a severity bucket key, a Go `string`. -/
abbrev Release := String

/-- The struct `shared.Commit`. -/
structure Commit where
  Message : String
  Author : String
  Hash : String
  deriving DecidableEq, Repr

/-- The struct `shared.AnalyzedCommit`. -/
structure AnalyzedCommit where
  Commit : Commit
  ParsedMessage : String
  Scope : String
  ParsedBreakingChangeMessage : String
  Tag : String
  TagString : String
  Print : Bool
  deriving DecidableEq, Repr

/-- A Go `map[shared.Release][]shared.AnalyzedCommit` as the calculator reads
it: indexing with a key (an absent key gives the nil slice, of length 0). -/
abbrev Buckets := Release → List AnalyzedCommit

/-! ## `internal/calculator/calculator.go` -/

/-- `Calculator.IncPrerelease`: increase the pre-release counter by one. -/
def IncPrerelease (preReleaseType : String) (version : Version) :
    Version × Option SemverError :=
  let defaultPrerelease := preReleaseType ++ ".0"
  if version.Prerelease = "" ∨ HasPrefix version.Prerelease preReleaseType = false then
    version.SetPrerelease defaultPrerelease
  else
    match SplitDot version.Prerelease with
    | [_, p1] =>
      match Atoi p1 with
      | none => version.SetPrerelease defaultPrerelease
      | some i => version.SetPrerelease (preReleaseType ++ "." ++ Itoa (wrapInt64 (i + 1)))
    | _ => version.SetPrerelease defaultPrerelease

/-- `Calculator.CalculateNewVersion`: the next version and the draft flag from
the bucketed commits, the last version, the release type of the branch and the
first-release flag. -/
def CalculateNewVersion (commits : Buckets) (lastVersion : Version)
    (releaseType : String) (firstRelease : Bool) : Version × Bool :=
  if releaseType = "beta" ∨ releaseType = "alpha" then
    if (commits "major").length > 0 ∨ (commits "minor").length > 0 ∨
        (commits "patch").length > 0 then
      ((IncPrerelease releaseType lastVersion).1, true)
    else (lastVersion, false)
  else if releaseType = "rc" then
    if (commits "major").length > 0 ∨ (commits "minor").length > 0 ∨
        (commits "patch").length > 0 then
      ((IncPrerelease releaseType lastVersion).1, false)
    else (lastVersion, false)
  else if releaseType = "release" then
    if firstRelease = false then
      if (commits "major").length > 0 then (lastVersion.IncMajor, false)
      else if (commits "minor").length > 0 then (lastVersion.IncMinor, false)
      else if (commits "patch").length > 0 then (lastVersion.IncPatch, false)
      else (lastVersion, false)
    else (lastVersion, false)
  else (lastVersion, false)

/-! ## The commit classifier (`internal/analyzer`)

The classifier's source is not part of the files at hand (only its test,
`conventional_test.go`, is); it is modelled from the specification, section
4.2, and checked against the expectations of the test. -/

/-- Modelled from the spec: the severity of a rule, one of major, minor, patch
and none (the analyzer's rule table is missing from the sources). -/
inductive Severity where
  | major
  | minor
  | patch
  | none
  deriving DecidableEq, Repr

/-- Modelled from the spec: the bucket key (`shared.Release`) of a severity. -/
def Severity.key : Severity → Release
  | Severity.major => "major"
  | Severity.minor => "minor"
  | Severity.patch => "patch"
  | Severity.none => "none"

/-- Modelled from the spec: one entry of the rule table (missing from the
sources), mapping a commit-type token to a severity, a section title and a
changelog-visibility flag. -/
structure Rule where
  typeToken : String
  severity : Severity
  sectionTitle : String
  visibleInChangelog : Bool
  deriving DecidableEq, Repr

/-- Modelled from the spec: the decomposition of a first line that matches the
grammar (the analyzer's matcher is missing from the sources). -/
structure Header where
  typeToken : String
  scope : String
  breaking : Bool
  description : String
  deriving DecidableEq, Repr

/-- Modelled from the spec: the characters of a type-token (the analyzer's
pattern is missing from the sources).  The spec's examples exclude `/` and the
blank; a token is taken to be a run of ASCII letters, digits and
underscores. -/
def isTokenChar (c : Char) : Bool := c.isAlphanum || c == '_'

/-- Modelled from the spec: the first line of a message (the analyzer's
matcher is missing from the sources). -/
def firstLine (msg : List Char) : List Char := msg.takeWhile (fun c => c != '\n')

/-- Modelled from the spec: the tail `[ "!" ] ":" description` of the grammar
(the analyzer's matcher is missing from the sources).  The blank that
separates the colon from the description is not part of the description. -/
def parseMarker (cs : List Char) : Option (Bool × List Char) :=
  let description := fun (d : List Char) =>
    match d with
    | ' ' :: d1 => d1
    | _ => d
  match cs with
  | '!' :: ':' :: d => some (true, description d)
  | ':' :: d => some (false, description d)
  | _ => none

/-- Modelled from the spec: match a first line against
`type-token [ "(" scope ")" ] [ "!" ] ":" description`, from the beginning of
the line (the analyzer's matcher is missing from the sources).  The scope runs
up to the first closing parenthesis. -/
def parseHeader (line : List Char) : Option Header :=
  let tok := line.takeWhile isTokenChar
  match line.dropWhile isTokenChar with
  | '(' :: r =>
    match r.dropWhile (fun c => c != ')') with
    | ')' :: r2 =>
      (parseMarker r2).map fun bd =>
        { typeToken := String.mk tok,
          scope := String.mk (r.takeWhile (fun c => c != ')')),
          breaking := bd.1, description := String.mk bd.2 }
    | _ => none
  | rest =>
    (parseMarker rest).map fun bd =>
      { typeToken := String.mk tok, scope := "", breaking := bd.1,
        description := String.mk bd.2 }

/-- Modelled from the spec: the literal footer marker (the analyzer's source
is missing). -/
def footerMarker : List Char := "BREAKING CHANGE:".data

/-- Modelled from the spec: the text that trails the first `BREAKING CHANGE:`
marker beginning a line of the message body, if there is one (the analyzer's
source is missing).  `atLineStart` tells whether the scan stands at the
beginning of a body line. -/
def findFooter (atLineStart : Bool) : List Char → Option (List Char)
  | [] => none
  | c :: cs =>
    if atLineStart && footerMarker.isPrefixOf (c :: cs) then
      some ((c :: cs).drop footerMarker.length)
    else findFooter (c == '\n') cs

/-- Modelled from the spec: the breaking-change footer of a message; the first
line is not part of the body (the analyzer's source is missing). -/
def footerOf (msg : String) : Option (List Char) := findFooter false msg.data

/-- Modelled from the spec: trimming of leading and trailing whitespace (the
analyzer's source is missing). -/
def trim (cs : List Char) : String :=
  String.mk ((cs.dropWhile Char.isWhitespace).reverse.dropWhile Char.isWhitespace).reverse

/-- Modelled from the spec: classification of one commit, steps 1 to 6 of the
classifier's algorithm (the analyzer's source is missing): `none` when the
commit is dropped, otherwise its severity and its analyzed record. -/
def analyzeCommit (rules : List Rule) (c : Commit) : Option (Severity × AnalyzedCommit) :=
  match parseHeader (firstLine c.Message.data) with
  | none => none
  | some h =>
    match rules.find? (fun r => r.typeToken = h.typeToken) with
    | none => none
    | some r =>
      let footer := footerOf c.Message
      let isBreaking := h.breaking || footer.isSome
      let parsedMessage :=
        match footer with
        | some _ => trim h.description.data
        | none => if h.breaking then "" else trim h.description.data
      let breakingChangeMessage :=
        match footer with
        | some t => trim t
        | none => if h.breaking then h.description else ""
      some (if isBreaking then Severity.major else r.severity,
        { Commit := c, ParsedMessage := parsedMessage, Scope := h.scope,
          ParsedBreakingChangeMessage := breakingChangeMessage,
          Tag := h.typeToken, TagString := r.sectionTitle,
          Print := r.visibleInChangelog })

/-- Modelled from the spec: step 7 of the classifier's algorithm, appending an
analyzed commit to the bucket of its severity (the analyzer's source is
missing). -/
def addToBucket (m : Buckets) (sev : Severity) (a : AnalyzedCommit) : Buckets :=
  fun k => if k = sev.key then m k ++ [a] else m k

/-- Modelled from the spec: `Analyze`, the classifier's public operation (the
analyzer's source is missing): the commits are taken in input order, starting
from four empty buckets. -/
def Analyze (rules : List Rule) (commits : List Commit) : Buckets :=
  commits.foldl
    (fun m c =>
      match analyzeCommit rules c with
      | none => m
      | some sa => addToBucket m sa.1 sa.2)
    (fun _ => [])

/-! ## `semver.Version`: comparison -/

/-- The library's `compareSegment(v, o)` on two `int64` segments. -/
def compareSegment (v o : Int) : Int :=
  if v < o then -1 else if v > o then 1 else 0

/-- Go `strconv.ParseUint(s, 10, 64)`: one or more decimal digits, no sign,
the value below `2^64`; `none` stands for a non-nil error. -/
def ParseUint (s : String) : Option Nat :=
  match parseUnsigned s.data with
  | some n => if n < 2 ^ 64 then some n else none
  | none => none

/-- The library's `comparePrePart(s, o)`: equal parts compare 0, an absent
part is smaller, numbers are smaller than text, two numbers compare by value
and two texts by string order. -/
def comparePrePart (s o : String) : Int :=
  if s = o then 0
  else if s = "" then (if o ≠ "" then -1 else 1)
  else if o = "" then (if s ≠ "" then 1 else -1)
  else
    match ParseUint o, ParseUint s with
    | none, none => if o < s then 1 else -1
    | none, some _ => -1
    | some _, none => 1
    | some oi, some si => if si > oi then 1 else -1

/-- The loop of the library's `comparePrerelease`: the parts are compared
position by position, a missing part standing as the empty text, up to the
first difference. -/
def comparePreParts : List String → List String → Int
  | [], [] => 0
  | s :: ss, [] =>
    if comparePrePart s "" ≠ 0 then comparePrePart s "" else comparePreParts ss []
  | [], o :: os =>
    if comparePrePart "" o ≠ 0 then comparePrePart "" o else comparePreParts [] os
  | s :: ss, o :: os =>
    if comparePrePart s o ≠ 0 then comparePrePart s o else comparePreParts ss os

/-- The library's `comparePrerelease(v, o)`. -/
def comparePrerelease (v o : String) : Int :=
  comparePreParts (SplitDot v) (SplitDot o)

/-- `Version.Compare(o)`: -1, 0 or 1; major, minor and patch first, then a
version without a label ranks above one with a label, then the labels. -/
def Version.Compare (v o : Version) : Int :=
  if compareSegment v.major o.major ≠ 0 then compareSegment v.major o.major
  else if compareSegment v.minor o.minor ≠ 0 then compareSegment v.minor o.minor
  else if compareSegment v.patch o.patch ≠ 0 then compareSegment v.patch o.patch
  else if v.pre = "" ∧ o.Prerelease = "" then 0
  else if v.pre = "" then 1
  else if o.Prerelease = "" then -1
  else comparePrerelease v.pre o.Prerelease

/-- `Version.Equal(o)`. -/
def Version.Equal (v o : Version) : Bool := v.Compare o == 0

/-- `Version.GreaterThan(o)`. -/
def Version.GreaterThan (v o : Version) : Bool := decide (v.Compare o > 0)

/-- The zero value of the struct `semver.Version`, what a declared but
unassigned variable holds. -/
def zeroVersion : Version :=
  { major := 0, minor := 0, patch := 0, pre := "", metadata := "", original := "" }

/-- The version `semver.NewVersion("1.0.0")` returns. -/
def defaultVersion : Version :=
  { major := 1, minor := 0, patch := 0, pre := "", metadata := "", original := "1.0.0" }

/-! ## `pkg/semanticrelease/semantic-release.go`

The collaborators (git access, cache, changelog generator, releaser) are
interfaces only; their answers are fields of the `SemanticRelease` value, and
every call to one of them is recorded in an event log. -/

/-- The fields of `ci.ProviderConfig` the orchestrator reads. -/
structure ProviderConfig where
  Branch : String
  Commit : String
  IsPR : Bool
  deriving DecidableEq, Repr

/-- The struct `shared.ReleaseVersionEntry`; `Version` is a pointer, `none`
being nil. -/
structure ReleaseVersionEntry where
  Commit : String
  Version : Option Version
  deriving DecidableEq, Repr

/-- The struct `shared.ReleaseVersion`, as `GetNextVersion` fills it. -/
structure ReleaseVersion where
  Last : ReleaseVersionEntry
  Next : ReleaseVersionEntry
  Branch : String
  Draft : Bool
  Commits : Buckets

/-- The struct `shared.ChangelogTemplateConfig`, as `GetChangelog` fills
it. -/
structure ChangelogTemplateConfig where
  Version : String
  Hash : String
  CommitURL : String
  CompareURL : String
  deriving DecidableEq, Repr

/-- The rendered changelog (`shared.GeneratedChangelog`). -/
abbrev GeneratedChangelog := String

/-- The part of `config.ReleaseConfig` the orchestrator reads: the branch map,
as the list of its entries (branch, release type) in the order the `range`
loop visits them. -/
structure ReleaseConfig where
  Branch : List (String × String)
  deriving DecidableEq, Repr

/-- A call to a collaborator. -/
inductive Event where
  | CacheRead
  | GetLastVersion
  | GetCommits
  | Analyze
  | CacheWrite
  | GenerateChangelog
  | GetReleaser
  | ValidateConfig
  | CreateRelease
  | UploadAssets
  deriving DecidableEq, Repr

/-- The struct `SemanticRelease`: the configuration and, for each
collaborator call of the orchestrator, the answer it gives (an error is a
text, `none` a nil error). -/
structure SemanticRelease where
  config : ReleaseConfig
  cacheRead : Except String ReleaseVersion
  cacheWrite : ReleaseVersion → Option String
  getLastVersion : Except String (Option Version × String)
  getCommits : String → Except String (List Commit)
  analyze : List Commit → Buckets
  generateChangelog : ChangelogTemplateConfig → Buckets → Except String GeneratedChangelog
  getCommitURL : String
  getCompareURL : String → String → String
  getReleaser : Option String
  validateConfig : Option String
  createRelease : ReleaseVersion → GeneratedChangelog → Option String
  uploadAssets : Option String

/-- The test of the `range` loop of `GetNextVersion`: the key equals the
provider's branch or is a prefix of it. -/
def branchMatches (providerBranch : String) (entry : String × String) : Bool :=
  providerBranch == entry.1 || HasPrefix providerBranch entry.1

/-- `GetNextVersion` from the call of `GetLastVersion` on (the cache being
bypassed or not hit): the last version or the default 1.0.0, the commits since
then, their analysis, the calculator call for the first matching branch entry,
and the cache write. -/
def nextVersionFromHistory (s : SemanticRelease) (provider : ProviderConfig) :
    Except String ReleaseVersion × List Event :=
  match s.getLastVersion with
  | Except.error err => (Except.error err, [Event.GetLastVersion])
  | Except.ok (lastVersionPtr, lastVersionHash) =>
    let firstRelease := lastVersionPtr.isNone
    let lastVersion := lastVersionPtr.getD defaultVersion
    match s.getCommits lastVersionHash with
    | Except.error err => (Except.error err, [Event.GetLastVersion, Event.GetCommits])
    | Except.ok commits =>
      let analyzedCommits := s.analyze commits
      let calculated : Version × Bool :=
        match s.config.Branch.find? (branchMatches provider.Branch) with
        | some entry => CalculateNewVersion analyzedCommits lastVersion entry.2 firstRelease
        | none => (zeroVersion, false)
      let releaseVersion : ReleaseVersion :=
        { Next := { Commit := provider.Commit, Version := some calculated.1 },
          Last := { Commit := lastVersionHash, Version := some lastVersion },
          Branch := provider.Branch,
          Draft := calculated.2,
          Commits := analyzedCommits }
      let events := [Event.GetLastVersion, Event.GetCommits, Event.Analyze, Event.CacheWrite]
      match s.cacheWrite releaseVersion with
      | some err => (Except.error err, events)
      | none => (Except.ok releaseVersion, events)

/-- `SemanticRelease.GetNextVersion`: the cached decision when the cache is
not bypassed and holds the provider's commit, otherwise the decision computed
from the history. -/
def GetNextVersion (s : SemanticRelease) (provider : ProviderConfig) (force : Bool) :
    Except String ReleaseVersion × List Event :=
  if force = false then
    match s.cacheRead with
    | Except.error err => (Except.error err, [Event.CacheRead])
    | Except.ok releaseVersion =>
      if releaseVersion.Next.Commit = provider.Commit then
        (Except.ok releaseVersion, [Event.CacheRead])
      else
        ((nextVersionFromHistory s provider).1,
          Event.CacheRead :: (nextVersionFromHistory s provider).2)
  else nextVersionFromHistory s provider

/-- `SemanticRelease.GetChangelog`; `none` is the panic on a nil version
pointer. -/
def GetChangelog (s : SemanticRelease) (releaseVersion : ReleaseVersion) :
    Option (Except String GeneratedChangelog) :=
  match releaseVersion.Next.Version, releaseVersion.Last.Version with
  | some next, some last =>
    some (s.generateChangelog
      { Version := next.StringOf, Hash := releaseVersion.Last.Commit,
        CommitURL := s.getCommitURL,
        CompareURL := s.getCompareURL last.StringOf next.StringOf }
      releaseVersion.Commits)
  | _, _ => none

/-- How a call of `Release` ends: with a nil error, with an error, or in a
panic (a nil version pointer in a cached decision). -/
inductive Outcome where
  | ok
  | failed (err : String)
  | panicked
  deriving DecidableEq, Repr

/-- The tail of `Release` once the changelog is at hand: the releaser is
built and validated, the release created and the assets uploaded. -/
def publish (s : SemanticRelease) (releaseVersion : ReleaseVersion)
    (generatedChangelog : GeneratedChangelog) : Outcome × List Event :=
  match s.getReleaser with
  | some err => (Outcome.failed err, [Event.GetReleaser])
  | none =>
    match s.validateConfig with
    | some err => (Outcome.failed err, [Event.GetReleaser, Event.ValidateConfig])
    | none =>
      match s.createRelease releaseVersion generatedChangelog with
      | some err =>
        (Outcome.failed err, [Event.GetReleaser, Event.ValidateConfig, Event.CreateRelease])
      | none =>
        match s.uploadAssets with
        | some err =>
          (Outcome.failed err,
            [Event.GetReleaser, Event.ValidateConfig, Event.CreateRelease,
              Event.UploadAssets])
        | none =>
          (Outcome.ok,
            [Event.GetReleaser, Event.ValidateConfig, Event.CreateRelease,
              Event.UploadAssets])

/-- `SemanticRelease.Release`: nothing on a pull request or on a branch that
is no key of the branch map; otherwise the next version is obtained and, when
it differs from the last one, the release is published. -/
def SemanticRelease.Release (s : SemanticRelease) (provider : ProviderConfig)
    (force : Bool) : Outcome × List Event :=
  if provider.IsPR = true then (Outcome.ok, [])
  else if (s.config.Branch.any (fun entry => entry.1 == provider.Branch)) = false then
    (Outcome.ok, [])
  else
    match GetNextVersion s provider force with
    | (Except.error err, events) => (Outcome.failed err, events)
    | (Except.ok releaseVersion, events) =>
      match releaseVersion.Next.Version, releaseVersion.Last.Version with
      | some next, some last =>
        if next.Equal last = true then (Outcome.ok, events)
        else
          match GetChangelog s releaseVersion with
          | none => (Outcome.panicked, events)
          | some (Except.error err) =>
            (Outcome.failed err, events ++ [Event.GenerateChangelog])
          | some (Except.ok generatedChangelog) =>
            ((publish s releaseVersion generatedChangelog).1,
              events ++ Event.GenerateChangelog ::
                (publish s releaseVersion generatedChangelog).2)
      | _, _ => (Outcome.panicked, events)

/-! ## Vocabulary of the specification -/

/-- The channel name of a pre-release label in the specification's sense: the
part of the label before its first dot. -/
def channelNameOf (label : String) : String :=
  String.mk (label.data.takeWhile (fun c => c != '.'))

/-- The specification's breaking-change footer: a line of the message after
the first one begins with the literal marker `BREAKING CHANGE:`, that is, the
message holds a line break directly followed by the marker. -/
def hasBreakingFooter (msg : String) : Prop :=
  ∃ before after : List Char, msg.data = before ++ '\n' :: (footerMarker ++ after)

/-- The text that trails the first breaking-change footer marker of a message:
`text` is what follows the first line break directly followed by the
marker. -/
def footerTextIs (msg : String) (text : List Char) : Prop :=
  ∃ before : List Char, msg.data = before ++ '\n' :: (footerMarker ++ text) ∧
    ¬ ∃ b1 b2 : List Char, before = b1 ++ '\n' :: (footerMarker ++ b2)

/-- The text `t` is `cs` with its leading and trailing whitespace removed:
`cs` is `t` between two runs of whitespace, and `t` neither begins nor ends
with whitespace. -/
def isTrimOf (t : String) (cs : List Char) : Prop :=
  ∃ l r : List Char, cs = l ++ t.data ++ r ∧
    (∀ c ∈ l, c.isWhitespace = true) ∧ (∀ c ∈ r, c.isWhitespace = true) ∧
    (∀ c, t.data.head? = some c → c.isWhitespace = false) ∧
    (∀ c, t.data.getLast? = some c → c.isWhitespace = false)

/-! ## Sample data -/

/-- The rules the test of the analyzer shows: `feat`, `fix` and `build`. -/
def sampleRules : List Rule :=
  [ { typeToken := "feat", severity := Severity.minor, sectionTitle := "Features",
      visibleInChangelog := true },
    { typeToken := "fix", severity := Severity.patch, sectionTitle := "Bug fixes",
      visibleInChangelog := true },
    { typeToken := "build", severity := Severity.none,
      sectionTitle := "Changes to CI/CD", visibleInChangelog := false } ]

/-- A version without metadata, as `semver.NewVersion` builds it from the text
`original`. -/
def mkVersion (major minor patch : Int) (pre original : String) : Version :=
  { major := major, minor := minor, patch := patch, pre := pre, metadata := "",
    original := original }

/-- An analyzed `fix` commit. -/
def sampleFix : AnalyzedCommit :=
  { Commit := { Message := "fix: my first commit", Author := "me", Hash := "12345667" },
    ParsedMessage := "my first commit", Scope := "", ParsedBreakingChangeMessage := "",
    Tag := "fix", TagString := "Bug fixes", Print := true }

/-- The commits of the test case "feat breaking change footer". -/
def sampleCommits : List Commit :=
  [ { Message := "feat: my first commit", Author := "me", Hash := "12345667" },
    { Message := "feat: my first break \n\nBREAKING CHANGE: change api to v2\n",
      Author := "me", Hash := "12345668" },
    { Message := "feat!: my first break \n\nBREAKING CHANGE: hey from the change",
      Author := "me", Hash := "12345669" } ]

/-- A `build` commit carrying the `!` marker. -/
def sampleBreakingBuild : Commit :=
  { Message := "build(ci)!: drop the old runner", Author := "me", Hash := "1234566a" }

/-- The commits of the test case "invalid". -/
def sampleInvalid : List Commit :=
  [ { Message := "internal/changelog: my first commit", Author := "me", Hash := "12345667" },
    { Message := "Merge feat: my first commit", Author := "me", Hash := "12345667" } ]

/-- The commit with the `!` marker and no footer of the test case "feat
breaking change". -/
def sampleMarkerOnly : Commit :=
  { Message := "feat!: my first break", Author := "me", Hash := "12345668" }

/-- The commit with a footer and no `!` marker of the test case "feat breaking
change footer". -/
def sampleFooterOnly : Commit :=
  { Message := "feat: my first break \n\nBREAKING CHANGE: change api to v2\n",
    Author := "me", Hash := "12345668" }

/-- The commit with the `!` marker and a footer of the test case "feat
breaking change footer". -/
def sampleMarkerFooter : Commit :=
  { Message := "feat!: my first break \n\nBREAKING CHANGE: hey from the change",
    Author := "me", Hash := "12345669" }

/-- The major bucket the test case "feat breaking change footer" expects. -/
def expectedFooterMajor : List AnalyzedCommit :=
  [ { Commit := sampleFooterOnly, ParsedMessage := "my first break", Scope := "",
      ParsedBreakingChangeMessage := "change api to v2", Tag := "feat",
      TagString := "Features", Print := true },
    { Commit := sampleMarkerFooter, ParsedMessage := "my first break", Scope := "",
      ParsedBreakingChangeMessage := "hey from the change", Tag := "feat",
      TagString := "Features", Print := true } ]

/-- Buckets holding one commit under each of the given keys. -/
def bucketsWith (keys : List Release) : Buckets :=
  fun k => if k ∈ keys then [sampleFix] else []

/-- A repository whose collaborators all succeed: the given last version,
one `feat` commit since then, the classifier with the sample rules, and the
given branch map. -/
def sampleRelease (branch : List (String × String)) (last : Option Version) :
    SemanticRelease :=
  { config := { Branch := branch },
    cacheRead := Except.error "no cache",
    cacheWrite := fun _ => none,
    getLastVersion := Except.ok (last, "12345660"),
    getCommits := fun _ =>
      Except.ok [{ Message := "feat: my first commit", Author := "me", Hash := "12345667" }],
    analyze := Analyze sampleRules,
    generateChangelog := fun _ _ => Except.ok "",
    getCommitURL := "",
    getCompareURL := fun _ _ => "",
    getReleaser := none,
    validateConfig := none,
    createRelease := fun _ _ => none,
    uploadAssets := none }

/-- A provider on the given branch, not a pull request. -/
def sampleProvider (branch : String) (isPR : Bool) : ProviderConfig :=
  { Branch := branch, Commit := "12345667", IsPR := isPR }

/-! ## Lemmas on the runtime helpers -/

theorem wrapInt64_of_inRange (x : Int) (h1 : -2 ^ 63 ≤ x) (h2 : x < 2 ^ 63) :
    wrapInt64 x = x := by
  unfold wrapInt64
  omega

theorem splitOnChar_ne_nil (sep : Char) (s : List Char) : splitOnChar sep s ≠ [] := by
  induction s with
  | nil => simp [splitOnChar]
  | cons c cs ih =>
    unfold splitOnChar
    split
    · simp
    · split
      · simp
      · simp

theorem splitOnChar_of_not_mem (sep : Char) (s : List Char) (h : sep ∉ s) :
    splitOnChar sep s = [s] := by
  induction s with
  | nil => rfl
  | cons c cs ih =>
    have hc : c ≠ sep := fun e => h (by simp [e])
    have hcs : sep ∉ cs := fun e => h (by simp [e])
    simp [splitOnChar, hc, ih hcs]

theorem splitOnChar_append (sep : Char) (a b : List Char) (h : sep ∉ a) :
    splitOnChar sep (a ++ sep :: b) = a :: splitOnChar sep b := by
  induction a with
  | nil => simp [splitOnChar]
  | cons c cs ih =>
    have hc : c ≠ sep := fun e => h (by simp [e])
    have hcs : sep ∉ cs := fun e => h (by simp [e])
    simp [splitOnChar, hc, ih hcs]

theorem digitChar_spec (d : Nat) (h : d < 10) :
    (Nat.digitChar d).isDigit = true ∧ (Nat.digitChar d).toNat - 48 = d ∧
      Nat.digitChar d ≠ '-' ∧ Nat.digitChar d ≠ '+' ∧ Nat.digitChar d ≠ '.' := by
  interval_cases d <;> decide

theorem isDigit_isPrereleaseChar (c : Char) (h : c.isDigit = true) :
    isPrereleaseChar c = true := by
  simp [isPrereleaseChar, Char.isAlphanum, h]

theorem decDigits_all_digit (fuel n : Nat) :
    ∀ c ∈ decDigits fuel n, c.isDigit = true := by
  induction fuel generalizing n with
  | zero => simp [decDigits]
  | succ f ih =>
    intro c hc
    unfold decDigits at hc
    split at hc
    · rename_i hn
      simp only [List.mem_singleton] at hc
      subst hc
      exact (digitChar_spec n hn).1
    · rcases List.mem_append.mp hc with h | h
      · exact ih _ c h
      · simp only [List.mem_singleton] at h
        subst h
        exact (digitChar_spec (n % 10) (Nat.mod_lt _ (by decide))).1

theorem decDigits_ne_nil (fuel n : Nat) : decDigits (fuel + 1) n ≠ [] := by
  unfold decDigits
  split <;> simp

theorem parseDigits_append (acc : Nat) (a b : List Char) :
    parseDigits acc (a ++ b) = (parseDigits acc a).bind (fun x => parseDigits x b) := by
  induction a generalizing acc with
  | nil => simp [parseDigits]
  | cons c cs ih =>
    simp only [List.cons_append, parseDigits]
    split
    · exact ih _
    · rfl

theorem parseDigits_decDigits (fuel n : Nat) (h : n < fuel) :
    parseDigits 0 (decDigits fuel n) = some n := by
  induction fuel generalizing n with
  | zero => omega
  | succ f ih =>
    unfold decDigits
    split
    · rename_i hn
      have hd := digitChar_spec n hn
      simp [parseDigits, hd.1, hd.2.1]
    · rename_i hn
      have hd := digitChar_spec (n % 10) (Nat.mod_lt _ (by decide))
      rw [parseDigits_append, ih (n / 10) (by omega)]
      simp only [Option.some_bind, parseDigits, hd.1, hd.2.1, if_true]
      congr 1
      omega

theorem natToDec_ne_nil (n : Nat) : natToDec n ≠ [] := decDigits_ne_nil n n

theorem natToDec_all_digit (n : Nat) : ∀ c ∈ natToDec n, c.isDigit = true :=
  decDigits_all_digit (n + 1) n

theorem parseUnsigned_natToDec (n : Nat) : parseUnsigned (natToDec n) = some n := by
  have h := parseDigits_decDigits (n + 1) n (Nat.lt_succ_self n)
  have hne := natToDec_ne_nil n
  unfold natToDec at hne ⊢
  unfold parseUnsigned
  split
  · rename_i heq
    exact absurd heq hne
  · exact h

/-- Reading back the canonical decimal text of a natural number below `2^63`. -/
theorem Atoi_Itoa_ofNat (n : Nat) (h : n < 2 ^ 63) : Atoi (Itoa (n : Int)) = some (n : Int) := by
  have hne := natToDec_ne_nil n
  have hall := natToDec_all_digit n
  have hp := parseUnsigned_natToDec n
  show Atoi (String.mk (natToDec n)) = some (n : Int)
  unfold Atoi
  simp only
  cases hd : natToDec n with
  | nil => exact absurd hd hne
  | cons c cs =>
    have hc : c.isDigit = true := hall c (by simp [hd])
    have h1 : c ≠ '-' := by rintro rfl; exact absurd hc (by decide)
    have h2 : c ≠ '+' := by rintro rfl; exact absurd hc (by decide)
    simp only [h1, h2, if_false]
    rw [← hd, hp]
    have h' : n < 9223372036854775808 := by norm_num at h; exact h
    simp [h']

theorem data_channel_counter (c s : String) :
    (c ++ "." ++ s).data = c.data ++ '.' :: s.data := by
  simp [String.data_append]

theorem String_mk_data (s : String) : String.mk s.data = s := rfl

theorem HasPrefix_channel_counter (c s : String) :
    HasPrefix (c ++ "." ++ s) c = true := by
  unfold HasPrefix
  rw [data_channel_counter]
  simp [List.isPrefixOf_iff_prefix]

theorem channel_counter_ne_empty (c s : String) : c ++ "." ++ s ≠ "" := by
  intro h
  have := congrArg String.data h
  rw [data_channel_counter] at this
  simp at this

theorem SplitDot_channel_counter (c s : String) (hc : '.' ∉ c.data) (hs : '.' ∉ s.data) :
    SplitDot (c ++ "." ++ s) = [c, s] := by
  unfold SplitDot
  rw [data_channel_counter, splitOnChar_append _ _ _ hc, splitOnChar_of_not_mem _ _ hs]
  rfl

theorem not_dot_of_isIdentifier (p : List Char) (h : isIdentifier p = true) : '.' ∉ p := by
  intro hmem
  unfold isIdentifier at h
  simp only [Bool.and_eq_true, List.all_eq_true] at h
  exact absurd (h.2 _ hmem) (by decide)

theorem validPrerelease_channel_counter (c s : String)
    (hc : isIdentifier c.data = true) (hs : isIdentifier s.data = true) :
    validPrerelease (c ++ "." ++ s) = true := by
  have hc1 : '.' ∉ c.data := not_dot_of_isIdentifier _ hc
  have hs1 : '.' ∉ s.data := not_dot_of_isIdentifier _ hs
  unfold validPrerelease
  rw [data_channel_counter, splitOnChar_append _ _ _ hc1, splitOnChar_of_not_mem _ _ hs1]
  simp [hc, hs]

theorem isIdentifier_natToDec (n : Nat) : isIdentifier (natToDec n) = true := by
  unfold isIdentifier
  simp only [Bool.and_eq_true, List.all_eq_true, Bool.not_eq_true', List.isEmpty_eq_false]
  exact ⟨natToDec_ne_nil n, fun c hc => isDigit_isPrereleaseChar c (natToDec_all_digit n c hc)⟩

theorem isIdentifier_Itoa (i : Int) : isIdentifier (Itoa i).data = true := by
  cases i with
  | ofNat n => exact isIdentifier_natToDec n
  | negSucc n =>
    have h := isIdentifier_natToDec (n + 1)
    unfold isIdentifier at h ⊢
    simp only [Bool.and_eq_true, List.all_eq_true] at h
    simp only [Itoa, Bool.and_eq_true, List.all_eq_true, List.mem_cons]
    refine ⟨by simp, ?_⟩
    rintro c (rfl | hc)
    · decide
    · exact h.2 c hc

theorem SetPrerelease_valid (v : Version) (p : String) (h : validPrerelease p = true) :
    (v.SetPrerelease p).2 = none ∧ (v.SetPrerelease p).1.pre = p ∧
      (v.SetPrerelease p).1.major = v.major ∧ (v.SetPrerelease p).1.minor = v.minor ∧
      (v.SetPrerelease p).1.patch = v.patch ∧
      (v.SetPrerelease p).1.metadata = v.metadata := by
  simp [Version.SetPrerelease, h]

/-- The label `IncPrerelease` asks `SetPrerelease` for is the channel's fresh
label or the channel followed by a counter. -/
theorem IncPrerelease_shape (c : String) (v : Version) :
    IncPrerelease c v = v.SetPrerelease (c ++ ".0") ∨
      ∃ i : Int, IncPrerelease c v = v.SetPrerelease (c ++ "." ++ Itoa i) := by
  unfold IncPrerelease
  simp only
  split
  · exact Or.inl rfl
  · split
    · split
      · exact Or.inl rfl
      · exact Or.inr ⟨_, rfl⟩
    · exact Or.inl rfl

/-! ## The version calculator: stable channel -/

/-- C1. Priority ordering on the stable channel: whenever the major bucket is
non-empty (whatever the other buckets hold, whatever label the previous
version carries), `CalculateNewVersion` on channel "release" with
`firstRelease = false` returns major+1 (the `int64` sum, which is the
mathematical one below the largest `int64`), minor 0, patch 0, no pre-release
label, and `isDraft = false`. -/
theorem release_major_wins (commits : Buckets) (v : Version)
    (hmajor : commits "major" ≠ []) :
    (CalculateNewVersion commits v "release" false).1.major = wrapInt64 (v.major + 1) ∧
    (-2 ^ 63 ≤ v.major → v.major < maxInt64 →
      (CalculateNewVersion commits v "release" false).1.major = v.major + 1) ∧
    (CalculateNewVersion commits v "release" false).1.minor = 0 ∧
    (CalculateNewVersion commits v "release" false).1.patch = 0 ∧
    (CalculateNewVersion commits v "release" false).1.pre = "" ∧
    (CalculateNewVersion commits v "release" false).2 = false := by
  have hlen : (commits "major").length > 0 := List.length_pos.mpr hmajor
  have hres : CalculateNewVersion commits v "release" false = (v.IncMajor, false) := by
    simp [CalculateNewVersion, hlen]
  rw [hres]
  refine ⟨rfl, ?_, rfl, rfl, rfl, rfl⟩
  intro h1 h2
  show wrapInt64 (v.major + 1) = v.major + 1
  unfold maxInt64 at h2
  exact wrapInt64_of_inRange _ (by omega) (by omega)

/-- Witness of C1: major and patch buckets both non-empty, previous version
1.2.3-beta.3. -/
theorem release_major_wins_witness :
    bucketsWith ["major", "patch"] "major" ≠ [] ∧
    bucketsWith ["major", "patch"] "patch" ≠ [] ∧
    (CalculateNewVersion (bucketsWith ["major", "patch"])
      (mkVersion 1 2 3 "beta.3" "1.2.3-beta.3") "release" false).1.major = 2 ∧
    (CalculateNewVersion (bucketsWith ["major", "patch"])
      (mkVersion 1 2 3 "beta.3" "1.2.3-beta.3") "release" false).1.minor = 0 :=
  ⟨by decide, by decide,
    (release_major_wins (bucketsWith ["major", "patch"])
      (mkVersion 1 2 3 "beta.3" "1.2.3-beta.3") (by decide)).2.1 (by decide) (by decide),
    (release_major_wins (bucketsWith ["major", "patch"])
      (mkVersion 1 2 3 "beta.3" "1.2.3-beta.3") (by decide)).2.2.1⟩

/-- C2. First-release suppression: on channel "release" with
`firstRelease = true` the previous version is returned unchanged, with
`isDraft = false`, whatever the buckets hold. -/
theorem release_first_release_unchanged (commits : Buckets) (v : Version) :
    CalculateNewVersion commits v "release" true = (v, false) := by
  simp [CalculateNewVersion]

/-- C3. Pre-release channel: for release type "alpha" or "beta", any previous
version and any first-release flag, a non-empty major, minor or patch bucket
makes `CalculateNewVersion` return the version `IncPrerelease` produces,
with `isDraft = true`. -/
theorem prerelease_channel_increments (commits : Buckets) (v : Version)
    (releaseType : String) (firstRelease : Bool)
    (htype : releaseType = "alpha" ∨ releaseType = "beta")
    (hany : commits "major" ≠ [] ∨ commits "minor" ≠ [] ∨ commits "patch" ≠ []) :
    CalculateNewVersion commits v releaseType firstRelease =
      ((IncPrerelease releaseType v).1, true) := by
  have hlen : (commits "major").length > 0 ∨ (commits "minor").length > 0 ∨
      (commits "patch").length > 0 := by
    simpa only [gt_iff_lt, List.length_pos] using hany
  have ht : releaseType = "beta" ∨ releaseType = "alpha" := htype.symm
  unfold CalculateNewVersion
  rw [if_pos ht, if_pos hlen]

/-- Witness of C3: channel "alpha", only the minor bucket non-empty, previous
version 1.2.3 on its first release. -/
theorem prerelease_channel_increments_witness :
    ("alpha" = "alpha" ∨ "alpha" = "beta") ∧
    (bucketsWith ["minor"] "major" ≠ [] ∨ bucketsWith ["minor"] "minor" ≠ [] ∨
      bucketsWith ["minor"] "patch" ≠ []) ∧
    CalculateNewVersion (bucketsWith ["minor"]) (mkVersion 1 2 3 "" "1.2.3") "alpha" true =
      ((IncPrerelease "alpha" (mkVersion 1 2 3 "" "1.2.3")).1, true) :=
  ⟨by decide, by decide,
    prerelease_channel_increments (bucketsWith ["minor"]) (mkVersion 1 2 3 "" "1.2.3")
      "alpha" true (by decide) (by decide)⟩

/-- C6, as stated, fails: with only the patch bucket non-empty and the
previous version 1.2.3-beta.3, the stable channel returns 1.2.3 (label
cleared, patch number kept), not 1.2.4. -/
theorem release_patch_labelled_counterexample :
    bucketsWith ["patch"] "major" = [] ∧ bucketsWith ["patch"] "minor" = [] ∧
    bucketsWith ["patch"] "patch" ≠ [] ∧
    (mkVersion 1 2 3 "beta.3" "1.2.3-beta.3").patch = 3 ∧
    (CalculateNewVersion (bucketsWith ["patch"])
      (mkVersion 1 2 3 "beta.3" "1.2.3-beta.3") "release" false).1.patch = 3 ∧
    (CalculateNewVersion (bucketsWith ["patch"])
      (mkVersion 1 2 3 "beta.3" "1.2.3-beta.3") "release" false).1.patch ≠ 3 + 1 := by
  decide

/-- C6, amended. Patch step on the stable channel: with the major and minor
buckets empty and the patch bucket non-empty, `CalculateNewVersion` on channel
"release" with `firstRelease = false` returns `isDraft = false` and a version
with the major and minor numbers of the previous one and no pre-release
label; its patch number is patch+1 (the `int64` sum) when the previous version
has no label, and the previous patch number when it carries one. -/
theorem release_patch_step (commits : Buckets) (v : Version)
    (hmajor : commits "major" = []) (hminor : commits "minor" = [])
    (hpatch : commits "patch" ≠ []) :
    (CalculateNewVersion commits v "release" false).2 = false ∧
    (CalculateNewVersion commits v "release" false).1.major = v.major ∧
    (CalculateNewVersion commits v "release" false).1.minor = v.minor ∧
    (CalculateNewVersion commits v "release" false).1.pre = "" ∧
    (v.pre = "" →
      (CalculateNewVersion commits v "release" false).1.patch = wrapInt64 (v.patch + 1)) ∧
    (v.pre = "" → -2 ^ 63 ≤ v.patch → v.patch < maxInt64 →
      (CalculateNewVersion commits v "release" false).1.patch = v.patch + 1) ∧
    (v.pre ≠ "" → (CalculateNewVersion commits v "release" false).1.patch = v.patch) := by
  have hlen : (commits "patch").length > 0 := List.length_pos.mpr hpatch
  have hres : CalculateNewVersion commits v "release" false = (v.IncPatch, false) := by
    simp [CalculateNewVersion, hmajor, hminor, hlen]
  rw [hres]
  refine ⟨rfl, ?_, ?_, ?_, ?_, ?_, ?_⟩
  · unfold Version.IncPatch; split <;> rfl
  · unfold Version.IncPatch; split <;> rfl
  · unfold Version.IncPatch; split <;> rfl
  · intro hpre
    simp [Version.IncPatch, hpre]
  · intro hpre h1 h2
    unfold maxInt64 at h2
    simp only [Version.IncPatch, hpre, ne_eq, not_true_eq_false, if_false]
    exact wrapInt64_of_inRange _ (by omega) (by omega)
  · intro hpre
    simp [Version.IncPatch, hpre]

/-- Witness of the amended C6: only the patch bucket non-empty, previous
version 1.2.3 without a label. -/
theorem release_patch_step_witness :
    bucketsWith ["patch"] "major" = [] ∧ bucketsWith ["patch"] "minor" = [] ∧
    bucketsWith ["patch"] "patch" ≠ [] ∧
    (CalculateNewVersion (bucketsWith ["patch"])
      (mkVersion 1 2 3 "" "1.2.3") "release" false).1.patch = 3 + 1 :=
  ⟨by decide, by decide, by decide,
    (release_patch_step (bucketsWith ["patch"]) (mkVersion 1 2 3 "" "1.2.3")
      (by decide) (by decide) (by decide)).2.2.2.2.2.1 (by decide) (by decide) (by decide)⟩

/-! ## The version calculator: pre-release channels -/

/-- C8. Release-candidate channel: for release type "rc", any previous version
and any first-release flag, a non-empty major, minor or patch bucket makes
`CalculateNewVersion` return the version `IncPrerelease "rc"` produces, which
carries a pre-release label, with `isDraft = false`. -/
theorem rc_channel_increments (commits : Buckets) (v : Version) (firstRelease : Bool)
    (hany : commits "major" ≠ [] ∨ commits "minor" ≠ [] ∨ commits "patch" ≠ []) :
    CalculateNewVersion commits v "rc" firstRelease = ((IncPrerelease "rc" v).1, false) ∧
    (CalculateNewVersion commits v "rc" firstRelease).1.pre ≠ "" := by
  have hlen : (commits "major").length > 0 ∨ (commits "minor").length > 0 ∨
      (commits "patch").length > 0 := by
    simpa only [gt_iff_lt, List.length_pos] using hany
  have hres : CalculateNewVersion commits v "rc" firstRelease =
      ((IncPrerelease "rc" v).1, false) := by
    unfold CalculateNewVersion
    rw [if_neg (by decide), if_pos rfl, if_pos hlen]
  refine ⟨hres, ?_⟩
  rw [hres]
  show (IncPrerelease "rc" v).1.pre ≠ ""
  rcases IncPrerelease_shape "rc" v with h | ⟨i, h⟩
  · rw [h, (SetPrerelease_valid v _ (by decide)).2.1]
    decide
  · rw [h, (SetPrerelease_valid v _
      (validPrerelease_channel_counter "rc" (Itoa i) (by decide) (isIdentifier_Itoa i))).2.1]
    exact channel_counter_ne_empty _ _

/-- Witness of C8: only the patch bucket non-empty, previous version
1.2.3-rc.1. -/
theorem rc_channel_increments_witness :
    (bucketsWith ["patch"] "major" ≠ [] ∨ bucketsWith ["patch"] "minor" ≠ [] ∨
      bucketsWith ["patch"] "patch" ≠ []) ∧
    CalculateNewVersion (bucketsWith ["patch"]) (mkVersion 1 2 3 "rc.1" "1.2.3-rc.1") "rc"
      false = ((IncPrerelease "rc" (mkVersion 1 2 3 "rc.1" "1.2.3-rc.1")).1, false) :=
  ⟨by decide,
    (rc_channel_increments (bucketsWith ["patch"]) (mkVersion 1 2 3 "rc.1" "1.2.3-rc.1")
      false (by decide)).1⟩

/-- C9. No qualifying change: for every release type, previous version and
first-release flag, empty major, minor and patch buckets (the none bucket may
hold anything) make `CalculateNewVersion` return the previous version
unchanged, with `isDraft = false`. -/
theorem no_qualifying_change (commits : Buckets) (v : Version) (releaseType : String)
    (firstRelease : Bool) (hmajor : commits "major" = []) (hminor : commits "minor" = [])
    (hpatch : commits "patch" = []) :
    CalculateNewVersion commits v releaseType firstRelease = (v, false) := by
  unfold CalculateNewVersion
  simp only [hmajor, hminor, hpatch, List.length_nil, gt_iff_lt, lt_self_iff_false,
    or_self, if_false]
  split_ifs <;> rfl

/-- Witness of C9: only the none bucket non-empty, channel "beta", previous
version 1.2.3-beta.3. -/
theorem no_qualifying_change_witness :
    bucketsWith ["none"] "major" = [] ∧ bucketsWith ["none"] "minor" = [] ∧
    bucketsWith ["none"] "patch" = [] ∧ bucketsWith ["none"] "none" ≠ [] ∧
    CalculateNewVersion (bucketsWith ["none"]) (mkVersion 1 2 3 "beta.3" "1.2.3-beta.3")
      "beta" false = (mkVersion 1 2 3 "beta.3" "1.2.3-beta.3", false) :=
  ⟨by decide, by decide, by decide, by decide,
    no_qualifying_change (bucketsWith ["none"]) (mkVersion 1 2 3 "beta.3" "1.2.3-beta.3")
      "beta" false (by decide) (by decide) (by decide)⟩

theorem splitOnChar_head (sep : Char) (s : List Char) :
    ∃ rest, splitOnChar sep s = s.takeWhile (fun c => c != sep) :: rest := by
  induction s with
  | nil => exact ⟨[], rfl⟩
  | cons c cs ih =>
    obtain ⟨rest, hrest⟩ := ih
    by_cases hc : c = sep
    · exact ⟨splitOnChar sep cs, by simp [splitOnChar, hc]⟩
    · exact ⟨rest, by simp [splitOnChar, hc, hrest]⟩

theorem SplitDot_head (label p0 p1 : String) (h : SplitDot label = [p0, p1]) :
    channelNameOf label = p0 := by
  obtain ⟨rest, hrest⟩ := splitOnChar_head '.' label.data
  unfold SplitDot at h
  rw [hrest] at h
  simp only [List.map_cons, List.cons.injEq] at h
  exact h.1

theorem validPrerelease_fresh (c : String) (hc : c = "alpha" ∨ c = "beta" ∨ c = "rc") :
    validPrerelease (c ++ ".0") = true := by
  rcases hc with rfl | rfl | rfl <;> decide

theorem isIdentifier_channel (c : String) (hc : c = "alpha" ∨ c = "beta" ∨ c = "rc") :
    isIdentifier c.data = true := by
  rcases hc with rfl | rfl | rfl <;> decide

/-- C4, as stated, fails for a channel name that contains a dot: the label
a.b.3 is the channel a.b followed by a dot and the counter 3, yet
`IncPrerelease "a.b"` answers a.b.0, not a.b.4. -/
theorem incPrerelease_dotted_channel_counterexample :
    (mkVersion 1 2 3 "a.b.3" "1.2.3-a.b.3").pre = "a.b" ++ "." ++ Itoa 3 ∧
    (mkVersion 1 2 3 "a.b.3" "1.2.3-a.b.3").WellFormed ∧
    (IncPrerelease "a.b" (mkVersion 1 2 3 "a.b.3" "1.2.3-a.b.3")).2 = none ∧
    (IncPrerelease "a.b" (mkVersion 1 2 3 "a.b.3" "1.2.3-a.b.3")).1.pre = "a.b.0" ∧
    (IncPrerelease "a.b" (mkVersion 1 2 3 "a.b.3" "1.2.3-a.b.3")).1.pre ≠
      "a.b" ++ "." ++ Itoa (3 + 1) := by
  decide

/-- C4, amended. Pre-release counter increment: for every channel name `c`
without a dot and every version whose (valid) pre-release label is exactly `c`,
a dot and the decimal text of a natural number `n < 2^63 - 1`,
`IncPrerelease c v` returns no error and `v` with its label replaced by
`c.(n+1)`; and `CalculateNewVersion` on channel "beta" with a non-empty major,
minor or patch bucket returns that version with `isDraft = true`. -/
theorem incPrerelease_counter (c : String) (v : Version) (n : Nat) (commits : Buckets)
    (firstRelease : Bool)
    (hdot : '.' ∉ c.data) (hvalid : validPrerelease v.pre = true)
    (hlabel : v.pre = c ++ "." ++ Itoa (n : Int)) (hn : (n : Int) < 2 ^ 63 - 1) :
    (IncPrerelease c v).2 = none ∧
    (IncPrerelease c v).1.pre = c ++ "." ++ Itoa ((n : Int) + 1) ∧
    (IncPrerelease c v).1.major = v.major ∧ (IncPrerelease c v).1.minor = v.minor ∧
    (IncPrerelease c v).1.patch = v.patch ∧ (IncPrerelease c v).1.metadata = v.metadata ∧
    (c = "beta" →
      (commits "major" ≠ [] ∨ commits "minor" ≠ [] ∨ commits "patch" ≠ []) →
      CalculateNewVersion commits v "beta" firstRelease = ((IncPrerelease c v).1, true) ∧
      (CalculateNewVersion commits v "beta" firstRelease).1.pre =
        "beta" ++ "." ++ Itoa ((n : Int) + 1)) := by
  have hItoa : '.' ∉ (Itoa (n : Int)).data := not_dot_of_isIdentifier _ (isIdentifier_Itoa _)
  have hsplit : SplitDot (c ++ "." ++ Itoa (n : Int)) = [c, Itoa (n : Int)] :=
    SplitDot_channel_counter c _ hdot hItoa
  have hcid : isIdentifier c.data = true := by
    have h := hvalid
    unfold validPrerelease at h
    rw [hlabel, data_channel_counter, splitOnChar_append _ _ _ hdot,
      splitOnChar_of_not_mem _ _ hItoa] at h
    simp only [List.all_cons, Bool.and_eq_true] at h
    exact h.1
  have hn' : n < 2 ^ 63 := by omega
  have hatoi : Atoi (Itoa (n : Int)) = some (n : Int) := Atoi_Itoa_ofNat n hn'
  have hwrap : wrapInt64 ((n : Int) + 1) = (n : Int) + 1 :=
    wrapInt64_of_inRange _ (by omega) (by omega)
  have hres : IncPrerelease c v = v.SetPrerelease (c ++ "." ++ Itoa ((n : Int) + 1)) := by
    unfold IncPrerelease
    simp only [Version.Prerelease, hlabel]
    rw [if_neg (by simp [channel_counter_ne_empty, HasPrefix_channel_counter]), hsplit]
    simp only [hatoi, hwrap]
  have hset := SetPrerelease_valid v (c ++ "." ++ Itoa ((n : Int) + 1))
    (validPrerelease_channel_counter c _ hcid (isIdentifier_Itoa _))
  rw [hres]
  refine ⟨hset.1, hset.2.1, hset.2.2.1, hset.2.2.2.1, hset.2.2.2.2.1, hset.2.2.2.2.2, ?_⟩
  intro hbeta hany
  have hlen : (commits "major").length > 0 ∨ (commits "minor").length > 0 ∨
      (commits "patch").length > 0 := by
    simpa only [gt_iff_lt, List.length_pos] using hany
  have hcalc : CalculateNewVersion commits v "beta" firstRelease =
      ((IncPrerelease "beta" v).1, true) := by
    unfold CalculateNewVersion
    rw [if_pos (Or.inl rfl), if_pos hlen]
  subst hbeta
  rw [hcalc, hres]
  exact ⟨rfl, hset.2.1⟩

/-- Witness of the amended C4: label beta.3 on channel "beta" gives
beta.4. -/
theorem incPrerelease_counter_witness :
    '.' ∉ "beta".data ∧
    validPrerelease (mkVersion 1 2 3 "beta.3" "1.2.3-beta.3").pre = true ∧
    (mkVersion 1 2 3 "beta.3" "1.2.3-beta.3").pre = "beta" ++ "." ++ Itoa ((3 : Nat) : Int) ∧
    (((3 : Nat) : Int) < 2 ^ 63 - 1) ∧
    (IncPrerelease "beta" (mkVersion 1 2 3 "beta.3" "1.2.3-beta.3")).1.pre =
      "beta" ++ "." ++ Itoa (((3 : Nat) : Int) + 1) ∧
    "beta" ++ "." ++ Itoa (((3 : Nat) : Int) + 1) = "beta.4" ∧
    (CalculateNewVersion (bucketsWith ["patch"]) (mkVersion 1 2 3 "beta.3" "1.2.3-beta.3")
      "beta" false).1.pre = "beta" ++ "." ++ Itoa (((3 : Nat) : Int) + 1) :=
  ⟨by decide, by decide, by decide, by decide,
    (incPrerelease_counter "beta" (mkVersion 1 2 3 "beta.3" "1.2.3-beta.3") 3
      (bucketsWith ["patch"]) false (by decide) (by decide) (by decide) (by decide)).2.1,
    by decide,
    ((incPrerelease_counter "beta" (mkVersion 1 2 3 "beta.3" "1.2.3-beta.3") 3
      (bucketsWith ["patch"]) false (by decide) (by decide) (by decide)
      (by decide)).2.2.2.2.2.2 rfl (by decide)).2⟩

/-- Outside one case `IncPrerelease` starts a fresh sequence: for a channel
among alpha, beta and rc, unless the label begins with the channel's text and
consists of exactly two dot-separated parts the second of which `strconv.Atoi`
accepts, the result is `v` with its label set to `c.0`, without error. -/
theorem incPrerelease_fresh_unless_counter (c : String) (v : Version)
    (hc : c = "alpha" ∨ c = "beta" ∨ c = "rc")
    (hnot : ¬ (HasPrefix v.pre c = true ∧
      ∃ (p0 p1 : String) (i : Int), SplitDot v.pre = [p0, p1] ∧ Atoi p1 = some i)) :
    (IncPrerelease c v).2 = none ∧
    (IncPrerelease c v).1.pre = c ++ ".0" ∧
    (IncPrerelease c v).1.major = v.major ∧ (IncPrerelease c v).1.minor = v.minor ∧
    (IncPrerelease c v).1.patch = v.patch ∧ (IncPrerelease c v).1.metadata = v.metadata := by
  have hres : IncPrerelease c v = v.SetPrerelease (c ++ ".0") := by
    unfold IncPrerelease
    simp only [Version.Prerelease]
    split
    · rfl
    · rename_i hcond
      have hpre : HasPrefix v.pre c = true := by
        cases hp : HasPrefix v.pre c with
        | true => rfl
        | false => exact absurd (Or.inr hp) hcond
      split
      · rename_i p0 p1 hsplit
        split
        · rfl
        · rename_i i hi
          exact absurd ⟨hpre, p0, p1, i, hsplit, hi⟩ hnot
      · rfl
  rw [hres]
  exact SetPrerelease_valid v _ (validPrerelease_fresh c hc)

/-- C5, on the code: the label alphabet.3 has the channel name alphabet, which
is not alpha, so the claim asks for alpha.0; `IncPrerelease "alpha"` (and
`CalculateNewVersion` on channel "alpha") answers alpha.4, because the guard
only tests that the label begins with the text alpha.  The sibling labels
alphabet, alphabet.x and alphabet.1.2 do restart at alpha.0. -/
theorem incPrerelease_channel_prefix_slip :
    ("alpha" = "alpha" ∨ "alpha" = "beta" ∨ "alpha" = "rc") ∧
    channelNameOf (mkVersion 1 2 3 "alphabet.3" "1.2.3-alphabet.3").pre = "alphabet" ∧
    channelNameOf (mkVersion 1 2 3 "alphabet.3" "1.2.3-alphabet.3").pre ≠ "alpha" ∧
    (mkVersion 1 2 3 "alphabet.3" "1.2.3-alphabet.3").WellFormed ∧
    (IncPrerelease "alpha" (mkVersion 1 2 3 "alphabet.3" "1.2.3-alphabet.3")).1.pre =
      "alpha.4" ∧
    (IncPrerelease "alpha" (mkVersion 1 2 3 "alphabet.3" "1.2.3-alphabet.3")).1.pre ≠
      "alpha" ++ ".0" ∧
    (CalculateNewVersion (bucketsWith ["patch"])
      (mkVersion 1 2 3 "alphabet.3" "1.2.3-alphabet.3") "alpha" false).1.pre = "alpha.4" ∧
    (IncPrerelease "alpha" (mkVersion 1 2 3 "alphabet" "1.2.3-alphabet")).1.pre =
      "alpha.0" ∧
    (IncPrerelease "alpha" (mkVersion 1 2 3 "alphabet.x" "1.2.3-alphabet.x")).1.pre =
      "alpha.0" ∧
    (IncPrerelease "alpha" (mkVersion 1 2 3 "alphabet.1.2" "1.2.3-alphabet.1.2")).1.pre =
      "alpha.0" := by
  decide

/-- C7. Lenient recovery never fails: for every channel name `c` among alpha,
beta and rc and every version `v`, `IncPrerelease c v` returns no error; and
when the label of `v` has the channel name `c` but is not `c`, a dot and one
integer `strconv.Atoi` accepts (no counter, a counter that is not a number or
is out of range, or more than two dot-separated parts), the result is `v` with
its label set to `c.0`. -/
theorem incPrerelease_lenient (c : String) (v : Version)
    (hc : c = "alpha" ∨ c = "beta" ∨ c = "rc") :
    (IncPrerelease c v).2 = none ∧
    (channelNameOf v.pre = c →
      (¬ ∃ (p1 : String) (i : Int), SplitDot v.pre = [c, p1] ∧ Atoi p1 = some i) →
      (IncPrerelease c v).1.pre = c ++ ".0" ∧
      (IncPrerelease c v).1.major = v.major ∧ (IncPrerelease c v).1.minor = v.minor ∧
      (IncPrerelease c v).1.patch = v.patch ∧
      (IncPrerelease c v).1.metadata = v.metadata) := by
  have hfresh := SetPrerelease_valid v (c ++ ".0") (validPrerelease_fresh c hc)
  constructor
  · rcases IncPrerelease_shape c v with h | ⟨i, h⟩
    · rw [h]; exact hfresh.1
    · rw [h]
      exact (SetPrerelease_valid v _ (validPrerelease_channel_counter c (Itoa i)
        (isIdentifier_channel c hc) (isIdentifier_Itoa i))).1
  · intro hname hnot
    have hres : IncPrerelease c v = v.SetPrerelease (c ++ ".0") := by
      unfold IncPrerelease
      simp only [Version.Prerelease]
      split
      · rfl
      · split
        · rename_i p0 p1 hsplit
          have hp0 : p0 = c := by rw [← SplitDot_head v.pre p0 p1 hsplit, hname]
          subst hp0
          split
          · rfl
          · rename_i i hi
            exact absurd ⟨p1, i, hsplit, hi⟩ hnot
        · rfl
    rw [hres]
    exact hfresh.2

/-- Witness of C7: the labels beta.x, beta.1.2, beta and
beta.99999999999999999999 all fall back to beta.0 on channel "beta". -/
theorem incPrerelease_lenient_witness :
    (IncPrerelease "beta" (mkVersion 1 2 3 "beta.x" "1.2.3-beta.x")).2 = none ∧
    (IncPrerelease "beta" (mkVersion 1 2 3 "beta.x" "1.2.3-beta.x")).1.pre = "beta" ++ ".0" ∧
    (IncPrerelease "beta" (mkVersion 1 2 3 "beta.1.2" "1.2.3-beta.1.2")).1.pre = "beta.0" ∧
    (IncPrerelease "beta" (mkVersion 1 2 3 "beta" "1.2.3-beta")).1.pre = "beta.0" ∧
    (IncPrerelease "beta" (mkVersion 1 2 3 "beta.99999999999999999999"
      "1.2.3-beta.99999999999999999999")).1.pre = "beta.0" :=
  ⟨(incPrerelease_lenient "beta" (mkVersion 1 2 3 "beta.x" "1.2.3-beta.x") (by decide)).1,
    ((incPrerelease_lenient "beta" (mkVersion 1 2 3 "beta.x" "1.2.3-beta.x")
      (by decide)).2 (by decide) (by
        rintro ⟨p1, i, hsplit, hi⟩
        have h1 : SplitDot (mkVersion 1 2 3 "beta.x" "1.2.3-beta.x").pre = ["beta", "x"] := by
          decide
        rw [h1] at hsplit
        simp only [List.cons.injEq, and_true, true_and] at hsplit
        subst hsplit
        have hx : Atoi "x" = none := by decide
        rw [hx] at hi
        cases hi)).1,
    by decide, by decide, by decide⟩

/-! ## The commit classifier: footer detection and trimming -/

theorem footerMarker_no_newline : '\n' ∉ footerMarker := by decide

theorem footerMarker_not_prefix_newline (l : List Char) :
    footerMarker.isPrefixOf ('\n' :: l) = false := by
  simp [footerMarker, List.isPrefixOf]

theorem findFooter_at_marker (after : List Char) :
    findFooter true (footerMarker ++ after) = some after := by
  have hpre : footerMarker.isPrefixOf (footerMarker ++ after) = true := by
    rw [List.isPrefixOf_iff_prefix]
    exact List.prefix_append _ _
  have hcons : footerMarker ++ after = 'B' :: ("REAKING CHANGE:".data ++ after) := rfl
  rw [hcons, findFooter, ← hcons, hpre]
  simp

/-- A line break directly followed by the marker is always found. -/
theorem findFooter_isSome_of_line (b : Bool) (before after : List Char) :
    (findFooter b (before ++ '\n' :: (footerMarker ++ after))).isSome = true := by
  induction before generalizing b with
  | nil =>
    rw [List.nil_append, findFooter, footerMarker_not_prefix_newline]
    simp [findFooter_at_marker]
  | cons c cs ih =>
    rw [List.cons_append, findFooter]
    split
    · rfl
    · exact ih _

theorem footerOf_isSome_of_hasBreakingFooter (msg : String) (h : hasBreakingFooter msg) :
    (footerOf msg).isSome = true := by
  obtain ⟨before, after, hmsg⟩ := h
  unfold footerOf
  rw [hmsg]
  exact findFooter_isSome_of_line false before after

/-- What the scan finds trails a marker that begins a line. -/
theorem findFooter_some_line (b : Bool) (l t : List Char) (h : findFooter b l = some t) :
    (b = true ∧ l = footerMarker ++ t) ∨
      ∃ before, l = before ++ '\n' :: (footerMarker ++ t) := by
  induction l generalizing b with
  | nil => simp [findFooter] at h
  | cons c cs ih =>
    rw [findFooter] at h
    split at h
    · rename_i hcond
      simp only [Bool.and_eq_true] at hcond
      obtain ⟨hb, hpre⟩ := hcond
      rw [List.isPrefixOf_iff_prefix] at hpre
      obtain ⟨rest, hrest⟩ := hpre
      simp only [Option.some.injEq] at h
      rw [← hrest, List.drop_left] at h
      exact Or.inl ⟨hb, by rw [← hrest, h]⟩
    · rcases ih _ h with ⟨hb, hcs⟩ | ⟨before, hcs⟩
      · have hc : c = '\n' := by simpa using hb
        exact Or.inr ⟨[], by rw [hc, hcs]; rfl⟩
      · exact Or.inr ⟨c :: before, by rw [hcs]; rfl⟩

theorem footerOf_none_of_not_hasBreakingFooter (msg : String) (h : ¬ hasBreakingFooter msg) :
    footerOf msg = none := by
  cases hf : footerOf msg with
  | none => rfl
  | some t =>
    unfold footerOf at hf
    rcases findFooter_some_line false msg.data t hf with ⟨hb, _⟩ | ⟨before, hm⟩
    · cases hb
    · exact absurd ⟨before, t, hm⟩ h

theorem prefix_of_prefix_append_cons (m cs rest : List Char) (x : Char) (hx : x ∉ m)
    (h : m <+: cs ++ x :: rest) : m <+: cs := by
  rcases List.prefix_or_prefix_of_prefix h (List.prefix_append cs (x :: rest)) with h1 | h1
  · exact h1
  · obtain ⟨t, ht⟩ := h1
    rw [← ht, List.prefix_append_right_inj] at h
    cases t with
    | nil => rw [← ht, List.append_nil]
    | cons y t' =>
      obtain ⟨r, hr⟩ := h
      simp only [List.cons_append, List.cons.injEq] at hr
      exact absurd (by rw [← ht, hr.1]; simp) hx

/-- The scan returns what trails the first marker that begins a line. -/
theorem findFooter_first (b : Bool) (before text : List Char)
    (hstart : b = true → ¬ footerMarker <+: before ++ '\n' :: (footerMarker ++ text))
    (hfirst : ¬ ∃ b1 b2 : List Char, before = b1 ++ '\n' :: (footerMarker ++ b2)) :
    findFooter b (before ++ '\n' :: (footerMarker ++ text)) = some text := by
  induction before generalizing b with
  | nil =>
    rw [List.nil_append, findFooter, footerMarker_not_prefix_newline]
    simp [findFooter_at_marker]
  | cons c cs ih =>
    have hcond : (b && footerMarker.isPrefixOf (c :: (cs ++ '\n' :: (footerMarker ++ text))))
        = false := by
      cases b with
      | false => rfl
      | true =>
        have hnp := hstart rfl
        rw [List.cons_append] at hnp
        rw [Bool.true_and, Bool.eq_false_iff]
        intro hp
        exact hnp (List.isPrefixOf_iff_prefix.mp hp)
    rw [List.cons_append, findFooter, hcond]
    simp only [Bool.false_eq_true, if_false]
    apply ih
    · intro hc hpre
      have hc' : c = '\n' := by simpa using hc
      obtain ⟨b2, hb2⟩ := prefix_of_prefix_append_cons _ _ _ _ footerMarker_no_newline hpre
      exact hfirst ⟨[], b2, by rw [hc', ← hb2]; rfl⟩
    · rintro ⟨b1, b2, hcs⟩
      exact hfirst ⟨c :: b1, b2, by rw [hcs]; rfl⟩

theorem footerOf_of_footerTextIs (msg : String) (text : List Char)
    (h : footerTextIs msg text) : footerOf msg = some text := by
  obtain ⟨before, hmsg, hfirst⟩ := h
  unfold footerOf
  rw [hmsg]
  exact findFooter_first false before text (fun hb => by cases hb) hfirst

/-- The model's `trim` removes exactly the leading and trailing whitespace. -/
theorem trim_isTrimOf (cs : List Char) : isTrimOf (trim cs) cs := by
  have h1 : cs = cs.takeWhile Char.isWhitespace ++ cs.dropWhile Char.isWhitespace :=
    (List.takeWhile_append_dropWhile Char.isWhitespace cs).symm
  have h2 : (cs.dropWhile Char.isWhitespace).reverse =
      (cs.dropWhile Char.isWhitespace).reverse.takeWhile Char.isWhitespace ++
        (cs.dropWhile Char.isWhitespace).reverse.dropWhile Char.isWhitespace :=
    (List.takeWhile_append_dropWhile Char.isWhitespace _).symm
  have h3 : cs.dropWhile Char.isWhitespace =
      ((cs.dropWhile Char.isWhitespace).reverse.dropWhile Char.isWhitespace).reverse ++
        ((cs.dropWhile Char.isWhitespace).reverse.takeWhile Char.isWhitespace).reverse := by
    rw [← List.reverse_append, ← h2, List.reverse_reverse]
  refine ⟨cs.takeWhile Char.isWhitespace,
    ((cs.dropWhile Char.isWhitespace).reverse.takeWhile Char.isWhitespace).reverse, ?_, ?_, ?_,
    ?_, ?_⟩
  · show cs = cs.takeWhile Char.isWhitespace ++
      ((cs.dropWhile Char.isWhitespace).reverse.dropWhile Char.isWhitespace).reverse ++ _
    rw [List.append_assoc, ← h3, ← h1]
  · intro c hc
    exact List.mem_takeWhile_imp hc
  · intro c hc
    exact List.mem_takeWhile_imp (List.mem_reverse.mp hc)
  · intro c hc
    have hc' : (((cs.dropWhile Char.isWhitespace).reverse.dropWhile
        Char.isWhitespace).reverse).head? = some c := hc
    have hhead : (cs.dropWhile Char.isWhitespace).head? = some c := by
      rw [h3, List.head?_append, hc']
      rfl
    have hnot := List.head?_dropWhile_not Char.isWhitespace cs
    rw [hhead] at hnot
    simpa using hnot
  · intro c hc
    have hc' : (((cs.dropWhile Char.isWhitespace).reverse.dropWhile
        Char.isWhitespace).reverse).getLast? = some c := hc
    rw [List.getLast?_reverse] at hc'
    have hnot := List.head?_dropWhile_not Char.isWhitespace
      (cs.dropWhile Char.isWhitespace).reverse
    rw [hc'] at hnot
    simpa using hnot

theorem no_footer_line_of_no_B (before : List Char) (h : 'B' ∉ before) :
    ¬ ∃ b1 b2 : List Char, before = b1 ++ '\n' :: (footerMarker ++ b2) := by
  rintro ⟨b1, b2, hb⟩
  apply h
  rw [hb]
  simp [footerMarker]

/-! ## The commit classifier -/

theorem analyzeCommit_commit (rules : List Rule) (c : Commit) (sev : Severity)
    (a : AnalyzedCommit) (h : analyzeCommit rules c = some (sev, a)) : a.Commit = c := by
  unfold analyzeCommit at h
  split at h
  · cases h
  · split at h
    · cases h
    · simp only [Option.some.injEq, Prod.mk.injEq] at h
      rw [← h.2]

theorem analyzeCommit_breaking (rules : List Rule) (c : Commit) (h : Header)
    (hparse : parseHeader (firstLine c.Message.data) = some h)
    (hrule : ∃ r ∈ rules, r.typeToken = h.typeToken)
    (hbreaking : h.breaking = true ∨ (footerOf c.Message).isSome = true) :
    ∃ a, analyzeCommit rules c = some (Severity.major, a) := by
  obtain ⟨r0, hr0, hr0tok⟩ := hrule
  have hfind : ∃ r, rules.find? (fun r => r.typeToken = h.typeToken) = some r := by
    cases hf : rules.find? (fun r => decide (r.typeToken = h.typeToken)) with
    | some r => exact ⟨r, rfl⟩
    | none =>
      rw [List.find?_eq_none] at hf
      exact absurd (by simpa using hr0tok) (hf r0 hr0)
  obtain ⟨r, hr⟩ := hfind
  have hb : (h.breaking || (footerOf c.Message).isSome) = true := by
    rcases hbreaking with hb | hb <;> simp [hb]
  unfold analyzeCommit
  simp only [hparse, hr, hb, if_true]
  exact ⟨_, rfl⟩

theorem foldl_bucket_mem (rules : List Rule) (commits : List Commit) (m : Buckets)
    (k : Release) (a : AnalyzedCommit) :
    a ∈ (commits.foldl
      (fun m c =>
        match analyzeCommit rules c with
        | none => m
        | some sa => addToBucket m sa.1 sa.2) m) k ↔
      a ∈ m k ∨ ∃ c ∈ commits, ∃ sev, analyzeCommit rules c = some (sev, a) ∧ sev.key = k := by
  induction commits generalizing m with
  | nil => simp
  | cons c cs ih =>
    rw [List.foldl_cons, ih]
    cases hc : analyzeCommit rules c with
    | none => simp [hc]
    | some sa =>
      obtain ⟨sev, a'⟩ := sa
      simp only [addToBucket, List.mem_cons, exists_eq_or_imp, hc, Option.some.injEq,
        Prod.mk.injEq]
      by_cases hk : k = sev.key
      · subst hk
        simp only [if_true, List.mem_append, List.mem_singleton]
        constructor
        · rintro ((h | h) | h)
          · exact Or.inl h
          · exact Or.inr (Or.inl ⟨sev, ⟨rfl, h.symm⟩, rfl⟩)
          · exact Or.inr (Or.inr h)
        · rintro (h | ⟨sev', ⟨_, h⟩, _⟩ | h)
          · exact Or.inl (Or.inl h)
          · exact Or.inl (Or.inr h.symm)
          · exact Or.inr h
      · simp only [if_neg hk]
        constructor
        · rintro (h | h)
          · exact Or.inl h
          · exact Or.inr (Or.inr h)
        · rintro (h | ⟨sev', ⟨hs, _⟩, hk'⟩ | h)
          · exact Or.inl h
          · exact absurd (by rw [← hk', hs]) hk
          · exact Or.inr h

/-- Membership in a bucket of `Analyze`: the analyzed records of the commits
whose severity has that key. -/
theorem Analyze_mem (rules : List Rule) (commits : List Commit) (k : Release)
    (a : AnalyzedCommit) :
    a ∈ Analyze rules commits k ↔
      ∃ c ∈ commits, ∃ sev, analyzeCommit rules c = some (sev, a) ∧ sev.key = k := by
  unfold Analyze
  rw [foldl_bucket_mem]
  simp

/-- C10. Breaking-change dominance: a commit of the input whose first line
matches the grammar with a type-token of the rule table, and which carries the
`!` marker or a `BREAKING CHANGE:` footer (a line after the first that begins
with the marker), has its analyzed record in the major bucket of `Analyze` and
in no bucket with another key, whatever severity the rule table gives its
type-token. -/
theorem breaking_change_dominance (rules : List Rule) (commits : List Commit) (c : Commit)
    (h : Header) (hmem : c ∈ commits)
    (hparse : parseHeader (firstLine c.Message.data) = some h)
    (hrule : ∃ r ∈ rules, r.typeToken = h.typeToken)
    (hbreaking : h.breaking = true ∨ hasBreakingFooter c.Message) :
    (∃ a ∈ Analyze rules commits "major", a.Commit = c) ∧
    (∀ (k : Release) (a : AnalyzedCommit),
      a ∈ Analyze rules commits k → a.Commit = c → k = "major") := by
  have hdetected : h.breaking = true ∨ (footerOf c.Message).isSome = true :=
    hbreaking.imp id (footerOf_isSome_of_hasBreakingFooter c.Message)
  obtain ⟨a0, ha0⟩ := analyzeCommit_breaking rules c h hparse hrule hdetected
  constructor
  · exact ⟨a0, (Analyze_mem rules commits "major" a0).mpr ⟨c, hmem, Severity.major, ha0, rfl⟩,
      analyzeCommit_commit rules c _ a0 ha0⟩
  · intro k a hak hac
    obtain ⟨c', _, sev, hc', hkey⟩ := (Analyze_mem rules commits k a).mp hak
    have hcc : c' = c := by rw [← analyzeCommit_commit rules c' sev a hc', hac]
    subst hcc
    rw [ha0] at hc'
    simp only [Option.some.injEq, Prod.mk.injEq] at hc'
    rw [← hkey, ← hc'.1]
    rfl

/-- Witness of C10: the `feat` commit of the test that carries only a
`BREAKING CHANGE:` footer (no `!` marker) lands in the major bucket and not in
the minor bucket of its rule; so does, against the none bucket, a `build`
commit with the `!` marker. -/
theorem breaking_change_dominance_witness :
    sampleFooterOnly ∈ sampleBreakingBuild :: sampleCommits ∧
    parseHeader (firstLine sampleFooterOnly.Message.data) =
      some { typeToken := "feat", scope := "", breaking := false,
             description := "my first break " } ∧
    hasBreakingFooter sampleFooterOnly.Message ∧
    (∃ a ∈ Analyze sampleRules (sampleBreakingBuild :: sampleCommits) "major",
      a.Commit = sampleFooterOnly) ∧
    (∀ a ∈ Analyze sampleRules (sampleBreakingBuild :: sampleCommits) "minor",
      a.Commit ≠ sampleFooterOnly) ∧
    parseHeader (firstLine sampleBreakingBuild.Message.data) =
      some { typeToken := "build", scope := "ci", breaking := true,
             description := "drop the old runner" } ∧
    (∃ a ∈ Analyze sampleRules (sampleBreakingBuild :: sampleCommits) "major",
      a.Commit = sampleBreakingBuild) ∧
    (∀ a ∈ Analyze sampleRules (sampleBreakingBuild :: sampleCommits) "none",
      a.Commit ≠ sampleBreakingBuild) ∧
    Analyze sampleRules sampleCommits "major" = expectedFooterMajor :=
  have hfooter : hasBreakingFooter sampleFooterOnly.Message :=
    ⟨"feat: my first break \n".data, " change api to v2\n".data, by decide⟩
  ⟨by decide, by decide, hfooter,
    (breaking_change_dominance sampleRules (sampleBreakingBuild :: sampleCommits)
      sampleFooterOnly
      { typeToken := "feat", scope := "", breaking := false,
        description := "my first break " }
      (by decide) (by decide) (by decide) (Or.inr hfooter)).1,
    fun a ha hc => absurd
      ((breaking_change_dominance sampleRules (sampleBreakingBuild :: sampleCommits)
        sampleFooterOnly
        { typeToken := "feat", scope := "", breaking := false,
          description := "my first break " }
        (by decide) (by decide) (by decide) (Or.inr hfooter)).2 "minor" a ha hc)
      (by decide),
    by decide,
    (breaking_change_dominance sampleRules (sampleBreakingBuild :: sampleCommits)
      sampleBreakingBuild
      { typeToken := "build", scope := "ci", breaking := true,
        description := "drop the old runner" }
      (by decide) (by decide) (by decide) (Or.inl rfl)).1,
    fun a ha hc => absurd
      ((breaking_change_dominance sampleRules (sampleBreakingBuild :: sampleCommits)
        sampleBreakingBuild
        { typeToken := "build", scope := "ci", breaking := true,
          description := "drop the old runner" }
        (by decide) (by decide) (by decide) (Or.inl rfl)).2 "none" a ha hc) (by decide),
    by decide⟩

/-! ## The version calculator: channels and invariants -/

theorem SetPrerelease_triple (v : Version) (p : String) :
    (v.SetPrerelease p).1.major = v.major ∧ (v.SetPrerelease p).1.minor = v.minor ∧
      (v.SetPrerelease p).1.patch = v.patch := by
  unfold Version.SetPrerelease
  split <;> exact ⟨rfl, rfl, rfl⟩

theorem IncPrerelease_triple (c : String) (v : Version) :
    (IncPrerelease c v).1.major = v.major ∧ (IncPrerelease c v).1.minor = v.minor ∧
      (IncPrerelease c v).1.patch = v.patch := by
  rcases IncPrerelease_shape c v with h | ⟨i, h⟩ <;> rw [h] <;> exact SetPrerelease_triple v _

theorem channelNameOf_channel_counter (c s : String) (hc : '.' ∉ c.data) :
    channelNameOf (c ++ "." ++ s) = c := by
  obtain ⟨rest, hrest⟩ := splitOnChar_head '.' (c ++ "." ++ s).data
  rw [data_channel_counter, splitOnChar_append _ _ _ hc] at hrest
  simp only [List.cons.injEq] at hrest
  unfold channelNameOf
  rw [data_channel_counter, ← hrest.1]

theorem compareSegment_succ (x : Int) (h1 : -2 ^ 63 ≤ x) (h2 : x < maxInt64) :
    compareSegment (wrapInt64 (x + 1)) x = 1 := by
  unfold maxInt64 at h2
  rw [wrapInt64_of_inRange _ (by omega) (by omega)]
  unfold compareSegment
  rw [if_neg (by omega), if_pos (by omega)]

theorem compareSegment_self (x : Int) : compareSegment x x = 0 := by
  simp [compareSegment]

/-- C11. Unrecognized channel: for every release type other than "alpha",
"beta", "rc" and "release", every previous version, bucket map and
first-release flag, `CalculateNewVersion` returns the previous version
unchanged, with `isDraft = false`. -/
theorem unrecognized_channel_noop (commits : Buckets) (v : Version) (releaseType : String)
    (firstRelease : Bool) (halpha : releaseType ≠ "alpha") (hbeta : releaseType ≠ "beta")
    (hrc : releaseType ≠ "rc") (hrelease : releaseType ≠ "release") :
    CalculateNewVersion commits v releaseType firstRelease = (v, false) := by
  unfold CalculateNewVersion
  rw [if_neg (by simp [halpha, hbeta]), if_neg hrc, if_neg hrelease]

/-- Witness of C11: channel "nightly" with all buckets filled. -/
theorem unrecognized_channel_noop_witness :
    CalculateNewVersion (bucketsWith ["major", "minor", "patch"])
      (mkVersion 1 2 3 "beta.3" "1.2.3-beta.3") "nightly" false =
      (mkVersion 1 2 3 "beta.3" "1.2.3-beta.3", false) :=
  unrecognized_channel_noop (bucketsWith ["major", "minor", "patch"])
    (mkVersion 1 2 3 "beta.3" "1.2.3-beta.3") "nightly" false
    (by decide) (by decide) (by decide) (by decide)

/-- C16. Minor beats patch on the stable channel: with the major bucket empty
and the minor bucket non-empty (whatever the patch bucket holds, whatever
label the previous version carries), `CalculateNewVersion` on channel
"release" with `firstRelease = false` returns the previous major, minor+1 (the
`int64` sum, which is the mathematical one below the largest `int64`), patch
0, no pre-release label, and `isDraft = false`. -/
theorem release_minor_beats_patch (commits : Buckets) (v : Version)
    (hmajor : commits "major" = []) (hminor : commits "minor" ≠ []) :
    (CalculateNewVersion commits v "release" false).1.major = v.major ∧
    (CalculateNewVersion commits v "release" false).1.minor = wrapInt64 (v.minor + 1) ∧
    (-2 ^ 63 ≤ v.minor → v.minor < maxInt64 →
      (CalculateNewVersion commits v "release" false).1.minor = v.minor + 1) ∧
    (CalculateNewVersion commits v "release" false).1.patch = 0 ∧
    (CalculateNewVersion commits v "release" false).1.pre = "" ∧
    (CalculateNewVersion commits v "release" false).2 = false := by
  have hlen : (commits "minor").length > 0 := List.length_pos.mpr hminor
  have hres : CalculateNewVersion commits v "release" false = (v.IncMinor, false) := by
    simp [CalculateNewVersion, hmajor, hlen]
  rw [hres]
  refine ⟨rfl, rfl, ?_, rfl, rfl, rfl⟩
  intro h1 h2
  show wrapInt64 (v.minor + 1) = v.minor + 1
  unfold maxInt64 at h2
  exact wrapInt64_of_inRange _ (by omega) (by omega)

/-- Witness of C16: minor and patch buckets non-empty, previous version
1.2.3-beta.3. -/
theorem release_minor_beats_patch_witness :
    bucketsWith ["minor", "patch"] "major" = [] ∧
    bucketsWith ["minor", "patch"] "minor" ≠ [] ∧
    bucketsWith ["minor", "patch"] "patch" ≠ [] ∧
    (CalculateNewVersion (bucketsWith ["minor", "patch"])
      (mkVersion 1 2 3 "beta.3" "1.2.3-beta.3") "release" false).1.minor = 2 + 1 ∧
    (CalculateNewVersion (bucketsWith ["minor", "patch"])
      (mkVersion 1 2 3 "beta.3" "1.2.3-beta.3") "release" false).1.patch = 0 :=
  ⟨by decide, by decide, by decide,
    (release_minor_beats_patch (bucketsWith ["minor", "patch"])
      (mkVersion 1 2 3 "beta.3" "1.2.3-beta.3") (by decide) (by decide)).2.2.1
      (by decide) (by decide),
    (release_minor_beats_patch (bucketsWith ["minor", "patch"])
      (mkVersion 1 2 3 "beta.3" "1.2.3-beta.3") (by decide) (by decide)).2.2.2.1⟩

/-- C17. A draft always carries a pre-release label: whenever
`CalculateNewVersion` returns `isDraft = true`, the release type is "alpha" or
"beta" and the returned version has a non-empty pre-release label whose
channel name (the part before its first dot) is the release type. -/
theorem draft_carries_label (commits : Buckets) (v : Version) (releaseType : String)
    (firstRelease : Bool)
    (hdraft : (CalculateNewVersion commits v releaseType firstRelease).2 = true) :
    (releaseType = "alpha" ∨ releaseType = "beta") ∧
    (CalculateNewVersion commits v releaseType firstRelease).1.pre ≠ "" ∧
    channelNameOf (CalculateNewVersion commits v releaseType firstRelease).1.pre =
      releaseType := by
  have hcases : (releaseType = "beta" ∨ releaseType = "alpha") ∧
      CalculateNewVersion commits v releaseType firstRelease =
        ((IncPrerelease releaseType v).1, true) := by
    unfold CalculateNewVersion at hdraft ⊢
    split_ifs at hdraft ⊢ with h1 h2
    exact ⟨h1, rfl⟩
  obtain ⟨htype, hres⟩ := hcases
  have hc : releaseType = "alpha" ∨ releaseType = "beta" ∨ releaseType = "rc" := by
    rcases htype with h | h
    · exact Or.inr (Or.inl h)
    · exact Or.inl h
  have hnodot : '.' ∉ releaseType.data := not_dot_of_isIdentifier _ (isIdentifier_channel _ hc)
  refine ⟨htype.symm, ?_⟩
  rw [hres]
  show (IncPrerelease releaseType v).1.pre ≠ "" ∧
    channelNameOf (IncPrerelease releaseType v).1.pre = releaseType
  rcases IncPrerelease_shape releaseType v with h | ⟨i, h⟩
  · have hzero : releaseType ++ ".0" = releaseType ++ "." ++ "0" := by
      rw [String.append_assoc]; rfl
    rw [h, (SetPrerelease_valid v _ (validPrerelease_fresh _ hc)).2.1, hzero]
    exact ⟨channel_counter_ne_empty _ _, channelNameOf_channel_counter _ _ hnodot⟩
  · rw [h, (SetPrerelease_valid v _ (validPrerelease_channel_counter releaseType (Itoa i)
      (isIdentifier_channel _ hc) (isIdentifier_Itoa i))).2.1]
    exact ⟨channel_counter_ne_empty _ _, channelNameOf_channel_counter _ _ hnodot⟩

/-- Witness of C17: channel "beta" with a non-empty patch bucket on
1.2.3-alpha.3 is a draft and carries the label beta.0. -/
theorem draft_carries_label_witness :
    (CalculateNewVersion (bucketsWith ["patch"]) (mkVersion 1 2 3 "alpha.3" "1.2.3-alpha.3")
      "beta" false).2 = true ∧
    (CalculateNewVersion (bucketsWith ["patch"]) (mkVersion 1 2 3 "alpha.3" "1.2.3-alpha.3")
      "beta" false).1.pre = "beta.0" ∧
    channelNameOf (CalculateNewVersion (bucketsWith ["patch"])
      (mkVersion 1 2 3 "alpha.3" "1.2.3-alpha.3") "beta" false).1.pre = "beta" :=
  ⟨by decide, by decide,
    (draft_carries_label (bucketsWith ["patch"]) (mkVersion 1 2 3 "alpha.3" "1.2.3-alpha.3")
      "beta" false (by decide)).2.2⟩

/-- C18. Stable releases strictly advance: on channel "release" with
`firstRelease = false`, for every previous version (`int64` components) and
every bucket map with a non-empty major, minor or patch bucket, the returned
version is strictly greater than the previous one in the library's precedence
(`GreaterThan`, that is `Compare` = 1), provided the component that is
incremented is below the largest `int64` (no overflow). -/
theorem release_strictly_advances (commits : Buckets) (v : Version)
    (hany : commits "major" ≠ [] ∨ commits "minor" ≠ [] ∨ commits "patch" ≠ [])
    (hrange : -2 ^ 63 ≤ v.major ∧ -2 ^ 63 ≤ v.minor ∧ -2 ^ 63 ≤ v.patch)
    (hmajor : commits "major" ≠ [] → v.major < maxInt64)
    (hminor : commits "major" = [] → commits "minor" ≠ [] → v.minor < maxInt64)
    (hpatch : commits "major" = [] → commits "minor" = [] → v.pre = "" →
      v.patch < maxInt64) :
    ((CalculateNewVersion commits v "release" false).1.Compare v = 1) ∧
    ((CalculateNewVersion commits v "release" false).1.GreaterThan v = true) := by
  have hcmp : (CalculateNewVersion commits v "release" false).1.Compare v = 1 := by
    by_cases h1 : commits "major" = []
    · by_cases h2 : commits "minor" = []
      · have h3 : commits "patch" ≠ [] := by
          rcases hany with h | h | h
          · exact absurd h1 h
          · exact absurd h2 h
          · exact h
        have hlen : (commits "patch").length > 0 := List.length_pos.mpr h3
        have hres : CalculateNewVersion commits v "release" false = (v.IncPatch, false) := by
          simp [CalculateNewVersion, h1, h2, hlen]
        rw [hres]
        by_cases hpre : v.pre = ""
        · simp [Version.Compare, Version.IncPatch, hpre, compareSegment_self,
            compareSegment_succ v.patch hrange.2.2 (hpatch h1 h2 hpre)]
        · simp [Version.Compare, Version.IncPatch, Version.Prerelease, hpre,
            compareSegment_self]
      · have hlen : (commits "minor").length > 0 := List.length_pos.mpr h2
        have hres : CalculateNewVersion commits v "release" false = (v.IncMinor, false) := by
          simp [CalculateNewVersion, h1, hlen]
        rw [hres]
        simp [Version.Compare, Version.IncMinor, compareSegment_self,
          compareSegment_succ v.minor hrange.2.1 (hminor h1 h2)]
    · have hlen : (commits "major").length > 0 := List.length_pos.mpr h1
      have hres : CalculateNewVersion commits v "release" false = (v.IncMajor, false) := by
        simp [CalculateNewVersion, hlen]
      rw [hres]
      simp [Version.Compare, Version.IncMajor,
        compareSegment_succ v.major hrange.1 (hmajor h1)]
  refine ⟨hcmp, ?_⟩
  unfold Version.GreaterThan
  rw [hcmp]
  decide

/-- Witness of C18: a patch release on 1.2.3-beta.3 gives 1.2.3, which is
greater than 1.2.3-beta.3. -/
theorem release_strictly_advances_witness :
    (bucketsWith ["patch"] "major" ≠ [] ∨ bucketsWith ["patch"] "minor" ≠ [] ∨
      bucketsWith ["patch"] "patch" ≠ []) ∧
    (CalculateNewVersion (bucketsWith ["patch"])
      (mkVersion 1 2 3 "beta.3" "1.2.3-beta.3") "release" false).1.GreaterThan
      (mkVersion 1 2 3 "beta.3" "1.2.3-beta.3") = true :=
  ⟨by decide,
    (release_strictly_advances (bucketsWith ["patch"])
      (mkVersion 1 2 3 "beta.3" "1.2.3-beta.3") (by decide) (by decide) (by decide)
      (by decide) (by decide)).2⟩

/-- C19. Pre-release channels never touch the version triple: for release type
"alpha", "beta" or "rc", every previous version, bucket map and first-release
flag, the version `CalculateNewVersion` returns has the major, minor and patch
numbers of the previous one. -/
theorem prerelease_keeps_triple (commits : Buckets) (v : Version) (releaseType : String)
    (firstRelease : Bool)
    (htype : releaseType = "alpha" ∨ releaseType = "beta" ∨ releaseType = "rc") :
    (CalculateNewVersion commits v releaseType firstRelease).1.major = v.major ∧
    (CalculateNewVersion commits v releaseType firstRelease).1.minor = v.minor ∧
    (CalculateNewVersion commits v releaseType firstRelease).1.patch = v.patch := by
  have hnot : releaseType ≠ "release" := by
    rcases htype with h | h | h <;> rw [h] <;> decide
  unfold CalculateNewVersion
  rw [if_neg hnot]
  split_ifs
  · exact IncPrerelease_triple releaseType v
  · exact ⟨rfl, rfl, rfl⟩
  · exact IncPrerelease_triple releaseType v
  · exact ⟨rfl, rfl, rfl⟩
  · exact ⟨rfl, rfl, rfl⟩

/-- Witness of C19: channel "rc" with a non-empty major bucket on 1.2.3-rc.1
keeps 1, 2 and 3. -/
theorem prerelease_keeps_triple_witness :
    (CalculateNewVersion (bucketsWith ["major"]) (mkVersion 1 2 3 "rc.1" "1.2.3-rc.1") "rc"
      false).1.major = 1 ∧
    (CalculateNewVersion (bucketsWith ["major"]) (mkVersion 1 2 3 "rc.1" "1.2.3-rc.1") "rc"
      false).1.minor = 2 ∧
    (CalculateNewVersion (bucketsWith ["major"]) (mkVersion 1 2 3 "rc.1" "1.2.3-rc.1") "rc"
      false).1.patch = 3 ∧
    (CalculateNewVersion (bucketsWith ["major"]) (mkVersion 1 2 3 "rc.1" "1.2.3-rc.1") "rc"
      false).1.pre = "rc.2" :=
  ⟨(prerelease_keeps_triple (bucketsWith ["major"]) (mkVersion 1 2 3 "rc.1" "1.2.3-rc.1")
      "rc" false (by decide)).1,
    (prerelease_keeps_triple (bucketsWith ["major"]) (mkVersion 1 2 3 "rc.1" "1.2.3-rc.1")
      "rc" false (by decide)).2.1,
    (prerelease_keeps_triple (bucketsWith ["major"]) (mkVersion 1 2 3 "rc.1" "1.2.3-rc.1")
      "rc" false (by decide)).2.2,
    by decide⟩

/-! ## The orchestrator -/

theorem find_branch_none (branch : List (String × String)) (providerBranch : String)
    (hnone : ∀ entry ∈ branch, branchMatches providerBranch entry = false) :
    branch.find? (branchMatches providerBranch) = none := by
  rw [List.find?_eq_none]
  intro entry hentry
  simp [hnone entry hentry]

/-- The decision `GetNextVersion` computes from the history when the
collaborators succeed. -/
theorem nextVersionFromHistory_ok (s : SemanticRelease) (provider : ProviderConfig)
    (lastVersionPtr : Option Version) (lastVersionHash : String) (commits : List Commit)
    (hlast : s.getLastVersion = Except.ok (lastVersionPtr, lastVersionHash))
    (hcommits : s.getCommits lastVersionHash = Except.ok commits)
    (hwrite : ∀ rv, s.cacheWrite rv = none) :
    (nextVersionFromHistory s provider).1 = Except.ok
      { Next := { Commit := provider.Commit,
                  Version := some (match s.config.Branch.find?
                      (branchMatches provider.Branch) with
                    | some entry =>
                      CalculateNewVersion (s.analyze commits)
                        (lastVersionPtr.getD defaultVersion) entry.2 lastVersionPtr.isNone
                    | none => (zeroVersion, false)).1 },
        Last := { Commit := lastVersionHash,
                  Version := some (lastVersionPtr.getD defaultVersion) },
        Branch := provider.Branch,
        Draft := (match s.config.Branch.find? (branchMatches provider.Branch) with
                    | some entry =>
                      CalculateNewVersion (s.analyze commits)
                        (lastVersionPtr.getD defaultVersion) entry.2 lastVersionPtr.isNone
                    | none => (zeroVersion, false)).2,
        Commits := s.analyze commits } := by
  unfold nextVersionFromHistory
  simp only [hlast, hcommits, hwrite]

/-- With the cache bypassed, or read but not holding the provider's commit,
`GetNextVersion` answers what the history gives. -/
theorem GetNextVersion_not_cached (s : SemanticRelease) (provider : ProviderConfig)
    (force : Bool)
    (hcache : force = true ∨
      ∃ cached, s.cacheRead = Except.ok cached ∧ cached.Next.Commit ≠ provider.Commit) :
    (GetNextVersion s provider force).1 = (nextVersionFromHistory s provider).1 := by
  unfold GetNextVersion
  rcases hcache with h | ⟨cached, hread, hmiss⟩
  · simp [h]
  · by_cases hf : force = false
    · simp only [hf, if_true, hread, if_neg hmiss]
    · simp [hf]

/-- Without a matching branch entry the decision carries the zero version as
`Next.Version` (the variable `newVersion` is never assigned) and
`Draft = false`. -/
theorem GetNextVersion_no_policy (s : SemanticRelease) (provider : ProviderConfig)
    (force : Bool) (lastVersionPtr : Option Version) (lastVersionHash : String)
    (commits : List Commit)
    (hcache : force = true ∨
      ∃ cached, s.cacheRead = Except.ok cached ∧ cached.Next.Commit ≠ provider.Commit)
    (hlast : s.getLastVersion = Except.ok (lastVersionPtr, lastVersionHash))
    (hcommits : s.getCommits lastVersionHash = Except.ok commits)
    (hwrite : ∀ rv, s.cacheWrite rv = none)
    (hnone : ∀ entry ∈ s.config.Branch, branchMatches provider.Branch entry = false) :
    ∃ rv, (GetNextVersion s provider force).1 = Except.ok rv ∧
      rv.Next.Version = some zeroVersion ∧ rv.Draft = false ∧
      rv.Last.Version = some (lastVersionPtr.getD defaultVersion) := by
  have hok := nextVersionFromHistory_ok s provider lastVersionPtr lastVersionHash commits
    hlast hcommits hwrite
  rw [← GetNextVersion_not_cached s provider force hcache] at hok
  refine ⟨_, hok, ?_⟩
  simp only [find_branch_none _ _ hnone]
  simp

/-- C12, on the code: with the branch map master -> release, the provider on
branch develop and the last version 1.2.3, no key equals the branch or is a
prefix of it; `GetNextVersion` returns no error and `Draft = false`, but
`Next.Version` is the zero version 0.0.0, which is not `Last.Version`
(1.2.3). -/
theorem getNextVersion_no_policy_zero_version :
    (∀ entry ∈ [("master", "release")], branchMatches "develop" entry = false) ∧
    ∃ rv, (GetNextVersion (sampleRelease [("master", "release")]
        (some (mkVersion 1 2 3 "" "1.2.3"))) (sampleProvider "develop" false) true).1 =
        Except.ok rv ∧
      rv.Draft = false ∧
      rv.Last.Version = some (mkVersion 1 2 3 "" "1.2.3") ∧
      rv.Next.Version = some zeroVersion ∧
      rv.Next.Version ≠ rv.Last.Version ∧
      zeroVersion.Equal (mkVersion 1 2 3 "" "1.2.3") = false :=
  ⟨by decide, _, rfl, rfl, rfl, rfl, by decide, by decide⟩

/-- C13. `Release` does nothing on a pull request or an unconfigured branch:
when the provider is a pull request, or its branch is not a key of the branch
map, `Release` returns a nil error and calls no collaborator at all (no cache
read or write, no version computation, no `CreateRelease`, no
`UploadAssets`). -/
theorem release_noop_on_pr_or_unconfigured (s : SemanticRelease) (provider : ProviderConfig)
    (force : Bool)
    (hskip : provider.IsPR = true ∨ ∀ entry ∈ s.config.Branch, entry.1 ≠ provider.Branch) :
    s.Release provider force = (Outcome.ok, []) ∧
    Event.CreateRelease ∉ (s.Release provider force).2 ∧
    Event.UploadAssets ∉ (s.Release provider force).2 ∧
    Event.CacheWrite ∉ (s.Release provider force).2 ∧
    Event.GetLastVersion ∉ (s.Release provider force).2 := by
  have hres : s.Release provider force = (Outcome.ok, []) := by
    unfold SemanticRelease.Release
    rcases hskip with h | h
    · rw [if_pos h]
    · by_cases hpr : provider.IsPR = true
      · rw [if_pos hpr]
      · have hany : (s.config.Branch.any (fun entry => entry.1 == provider.Branch)) = false := by
          rw [List.any_eq_false]
          intro entry hentry
          simpa using h entry hentry
        rw [if_neg hpr, if_pos hany]
  rw [hres]
  simp

/-- Witness of C13: a pull request on the configured branch master, and the
branch develop, which is no key of the map, both leave the event log empty. -/
theorem release_noop_on_pr_or_unconfigured_witness :
    ((sampleRelease [("master", "release")] (some (mkVersion 1 2 3 "" "1.2.3"))).Release
      (sampleProvider "master" true) true = (Outcome.ok, [])) ∧
    ((sampleRelease [("master", "release")] (some (mkVersion 1 2 3 "" "1.2.3"))).Release
      (sampleProvider "develop" false) true = (Outcome.ok, [])) ∧
    ((sampleRelease [("master", "release")] (some (mkVersion 1 2 3 "" "1.2.3"))).Release
      (sampleProvider "master" false) true).2 ≠ [] :=
  ⟨(release_noop_on_pr_or_unconfigured
      (sampleRelease [("master", "release")] (some (mkVersion 1 2 3 "" "1.2.3")))
      (sampleProvider "master" true) true (Or.inl rfl)).1,
    (release_noop_on_pr_or_unconfigured
      (sampleRelease [("master", "release")] (some (mkVersion 1 2 3 "" "1.2.3")))
      (sampleProvider "develop" false) true (Or.inr (by decide))).1,
    by decide⟩

/-- C20, as stated, fails: without a last version and with the branch map
m -> beta, master -> release visited in that order, the provider's branch
master is mapped to "release", yet the loop selects the key m (a prefix of
master) and `GetNextVersion` returns 1.0.0-beta.0 with `Draft = true`. -/
theorem first_release_prefix_key_counterexample :
    ("master", "release") ∈ [("m", "beta"), ("master", "release")] ∧
    ∃ rv, (GetNextVersion (sampleRelease [("m", "beta"), ("master", "release")] none)
        (sampleProvider "master" false) true).1 = Except.ok rv ∧
      rv.Last.Version = some defaultVersion ∧
      rv.Next.Version = some (mkVersion 1 0 0 "beta.0" "1.0.0-beta.0") ∧
      rv.Next.Version ≠ some defaultVersion ∧
      rv.Draft = true :=
  ⟨by decide, _, rfl, rfl, rfl, by decide, rfl⟩

/-- C20, amended. First release baseline: in `GetNextVersion` with the cache
bypassed or not hit, when `GetLastVersion` returns no version (and the
collaborators succeed), the previous version is 1.0.0 and the calculator is
called with `firstRelease = true`; when the branch entry the loop selects for
the provider's branch (the first key visited that equals the branch or is a
prefix of it) has the release type "release", the decision is returned with
`Next.Version` = 1.0.0 and `Draft = false`, whatever the analyzed commits
are. -/
theorem first_release_baseline (s : SemanticRelease) (provider : ProviderConfig)
    (force : Bool) (lastVersionHash : String) (commits : List Commit) (key : String)
    (hcache : force = true ∨
      ∃ cached, s.cacheRead = Except.ok cached ∧ cached.Next.Commit ≠ provider.Commit)
    (hlast : s.getLastVersion = Except.ok (none, lastVersionHash))
    (hcommits : s.getCommits lastVersionHash = Except.ok commits)
    (hwrite : ∀ rv, s.cacheWrite rv = none)
    (hbranch : s.config.Branch.find? (branchMatches provider.Branch) = some (key, "release")) :
    ∃ rv, (GetNextVersion s provider force).1 = Except.ok rv ∧
      rv.Last.Version = some defaultVersion ∧
      rv.Next.Version =
        some (CalculateNewVersion (s.analyze commits) defaultVersion "release" true).1 ∧
      rv.Next.Version = some defaultVersion ∧
      rv.Draft = false ∧
      defaultVersion.major = 1 ∧ defaultVersion.minor = 0 ∧ defaultVersion.patch = 0 ∧
      defaultVersion.pre = "" := by
  have hcalc : CalculateNewVersion (s.analyze commits) defaultVersion "release" true =
      (defaultVersion, false) := by
    simp [CalculateNewVersion]
  have hok := nextVersionFromHistory_ok s provider none lastVersionHash commits hlast
    hcommits hwrite
  rw [← GetNextVersion_not_cached s provider force hcache] at hok
  refine ⟨_, hok, ?_⟩
  simp only [hbranch, Option.getD_none, Option.isNone_none, hcalc]
  simp [defaultVersion]

/-- Witness of the amended C20: no last version, the branch master mapped to "release", a
`feat` commit since the beginning: the next version is 1.0.0, not a draft. -/
theorem first_release_baseline_witness :
    ∃ rv, (GetNextVersion (sampleRelease [("master", "release")] none)
        (sampleProvider "master" false) true).1 = Except.ok rv ∧
      rv.Next.Version = some defaultVersion ∧ rv.Draft = false ∧
      rv.Commits "minor" ≠ [] := by
  obtain ⟨rv, hrv, _, _, hnext, hdraft, _⟩ :=
    first_release_baseline (sampleRelease [("master", "release")] none)
      (sampleProvider "master" false) true "12345660"
      [{ Message := "feat: my first commit", Author := "me", Hash := "12345667" }] "master"
      (Or.inl rfl) rfl rfl (fun _ => rfl) (by decide)
  refine ⟨rv, hrv, hnext, hdraft, ?_⟩
  have hok : (GetNextVersion (sampleRelease [("master", "release")] none)
      (sampleProvider "master" false) true).1 = Except.ok
        { Next := { Commit := "12345667", Version := some defaultVersion },
          Last := { Commit := "12345660", Version := some defaultVersion },
          Branch := "master", Draft := false,
          Commits := Analyze sampleRules
            [{ Message := "feat: my first commit", Author := "me", Hash := "12345667" }] } :=
    rfl
  rw [hok] at hrv
  cases hrv
  decide

/-! ## The commit classifier: dropped commits and breaking messages -/

theorem analyzeCommit_dropped (rules : List Rule) (c : Commit)
    (hdrop : parseHeader (firstLine c.Message.data) = none ∨
      ∃ h, parseHeader (firstLine c.Message.data) = some h ∧
        ∀ r ∈ rules, r.typeToken ≠ h.typeToken) :
    analyzeCommit rules c = none := by
  unfold analyzeCommit
  rcases hdrop with hnone | ⟨h, hsome, hrules⟩
  · simp only [hnone]
  · have hfind : rules.find? (fun r => decide (r.typeToken = h.typeToken)) = none := by
      rw [List.find?_eq_none]
      intro r hr
      simpa using hrules r hr
    simp only [hsome, hfind]

theorem analyzeCommit_marker (rules : List Rule) (c : Commit) (h : Header)
    (sev : Severity) (a : AnalyzedCommit)
    (hparse : parseHeader (firstLine c.Message.data) = some h)
    (hbang : h.breaking = true)
    (ha : analyzeCommit rules c = some (sev, a)) :
    (footerOf c.Message = none →
      a.ParsedBreakingChangeMessage = h.description ∧ a.ParsedMessage = "") ∧
    (∀ t, footerOf c.Message = some t →
      a.ParsedMessage = trim h.description.data ∧ a.ParsedBreakingChangeMessage = trim t) := by
  unfold analyzeCommit at ha
  simp only [hparse] at ha
  split at ha
  · cases ha
  · simp only [Option.some.injEq, Prod.mk.injEq] at ha
    obtain ⟨_, ha⟩ := ha
    subst ha
    constructor
    · intro hfoot
      simp [hfoot, hbang]
    · intro t hfoot
      simp [hfoot]

/-- C14. Drop-on-mismatch: a commit whose first line does not match the
grammar, or whose type-token is not in the rule table, has no analyzed record
in any bucket of `Analyze`; and a list made only of such commits yields empty
buckets under every key (major, minor, patch and none included). -/
theorem drop_on_mismatch (rules : List Rule) (commits : List Commit) :
    (∀ c ∈ commits,
      (parseHeader (firstLine c.Message.data) = none ∨
        ∃ h, parseHeader (firstLine c.Message.data) = some h ∧
          ∀ r ∈ rules, r.typeToken ≠ h.typeToken) →
      ∀ (k : Release) (a : AnalyzedCommit), a ∈ Analyze rules commits k → a.Commit ≠ c) ∧
    ((∀ c ∈ commits,
      (parseHeader (firstLine c.Message.data) = none ∨
        ∃ h, parseHeader (firstLine c.Message.data) = some h ∧
          ∀ r ∈ rules, r.typeToken ≠ h.typeToken)) →
      ∀ k : Release, Analyze rules commits k = []) := by
  constructor
  · intro c _ hdrop k a hak hac
    obtain ⟨c', _, sev, hc', _⟩ := (Analyze_mem rules commits k a).mp hak
    have hcc : c' = c := by rw [← analyzeCommit_commit rules c' sev a hc', hac]
    subst hcc
    rw [analyzeCommit_dropped rules c' hdrop] at hc'
    cases hc'
  · intro hall k
    apply List.eq_nil_iff_forall_not_mem.mpr
    intro a hak
    obtain ⟨c', hmem, sev, hc', _⟩ := (Analyze_mem rules commits k a).mp hak
    rw [analyzeCommit_dropped rules c' (hall c' hmem)] at hc'
    cases hc'

/-- Witness of C14: the two commits of the test case "invalid" do not match
the grammar, and the four buckets are empty. -/
theorem drop_on_mismatch_witness :
    parseHeader (firstLine "internal/changelog: my first commit".data) = none ∧
    parseHeader (firstLine "Merge feat: my first commit".data) = none ∧
    Analyze sampleRules sampleInvalid "major" = [] ∧
    Analyze sampleRules sampleInvalid "minor" = [] ∧
    Analyze sampleRules sampleInvalid "patch" = [] ∧
    Analyze sampleRules sampleInvalid "none" = [] :=
  have hall : ∀ c ∈ sampleInvalid,
      (parseHeader (firstLine c.Message.data) = none ∨
        ∃ h, parseHeader (firstLine c.Message.data) = some h ∧
          ∀ r ∈ sampleRules, r.typeToken ≠ h.typeToken) := by
    intro c hc
    simp only [sampleInvalid, List.mem_cons, List.mem_singleton, List.not_mem_nil,
      or_false] at hc
    rcases hc with rfl | rfl
    · exact Or.inl (by decide)
    · exact Or.inl (by decide)
  ⟨by decide, by decide,
    (drop_on_mismatch sampleRules sampleInvalid).2 hall "major",
    (drop_on_mismatch sampleRules sampleInvalid).2 hall "minor",
    (drop_on_mismatch sampleRules sampleInvalid).2 hall "patch",
    (drop_on_mismatch sampleRules sampleInvalid).2 hall "none"⟩

theorem not_hasBreakingFooter_of_no_newline (msg : String) (h : '\n' ∉ msg.data) :
    ¬ hasBreakingFooter msg := by
  rintro ⟨before, after, hmsg⟩
  apply h
  rw [hmsg]
  simp

/-- C15. Marker-only breaking commits: a commit of the input whose first line
matches the grammar with the `!` marker and a type-token of the rule table has
an analyzed record, in the major bucket; without a `BREAKING CHANGE:` footer
(no line after the first begins with the marker) every record of it has
`ParsedBreakingChangeMessage` equal to the first line's description and an
empty `ParsedMessage`; with a footer its `ParsedMessage` is the description
with leading and trailing whitespace removed and its
`ParsedBreakingChangeMessage` is the text that trails the first footer marker,
with leading and trailing whitespace removed. -/
theorem marker_breaking_messages (rules : List Rule) (commits : List Commit) (c : Commit)
    (h : Header) (hmem : c ∈ commits)
    (hparse : parseHeader (firstLine c.Message.data) = some h)
    (hrule : ∃ r ∈ rules, r.typeToken = h.typeToken)
    (hbang : h.breaking = true) :
    (∃ a ∈ Analyze rules commits "major", a.Commit = c) ∧
    (∀ (k : Release) (a : AnalyzedCommit), a ∈ Analyze rules commits k → a.Commit = c →
      (¬ hasBreakingFooter c.Message →
        a.ParsedBreakingChangeMessage = h.description ∧ a.ParsedMessage = "") ∧
      (∀ text, footerTextIs c.Message text →
        isTrimOf a.ParsedMessage h.description.data ∧
        isTrimOf a.ParsedBreakingChangeMessage text)) := by
  obtain ⟨a0, ha0⟩ := analyzeCommit_breaking rules c h hparse hrule (Or.inl hbang)
  constructor
  · exact ⟨a0, (Analyze_mem rules commits "major" a0).mpr ⟨c, hmem, Severity.major, ha0, rfl⟩,
      analyzeCommit_commit rules c _ a0 ha0⟩
  · intro k a hak hac
    obtain ⟨c', _, sev, hc', _⟩ := (Analyze_mem rules commits k a).mp hak
    have hcc : c' = c := by rw [← analyzeCommit_commit rules c' sev a hc', hac]
    subst hcc
    have hmodel := analyzeCommit_marker rules c' h sev a hparse hbang hc'
    constructor
    · intro hno
      exact hmodel.1 (footerOf_none_of_not_hasBreakingFooter _ hno)
    · intro text htext
      obtain ⟨hpm, hpbm⟩ := hmodel.2 text (footerOf_of_footerTextIs _ text htext)
      rw [hpm, hpbm]
      exact ⟨trim_isTrimOf _, trim_isTrimOf _⟩

/-- Witness of C15: the commit "feat!: my first break" of the test has the
breaking message "my first break" and an empty parsed message; the commit of
the test with the marker and the footer "hey from the change" has the parsed
message "my first break" and that footer text as breaking message, and the
major bucket of the footer test case is the one the test expects. -/
theorem marker_breaking_messages_witness :
    sampleMarkerOnly ∈ [sampleMarkerOnly] ∧
    parseHeader (firstLine sampleMarkerOnly.Message.data) =
      some { typeToken := "feat", scope := "", breaking := true,
             description := "my first break" } ∧
    ¬ hasBreakingFooter sampleMarkerOnly.Message ∧
    (∀ a ∈ Analyze sampleRules [sampleMarkerOnly] "major",
      a.ParsedBreakingChangeMessage = "my first break" ∧ a.ParsedMessage = "") ∧
    Analyze sampleRules [sampleMarkerOnly] "major" ≠ [] ∧
    sampleMarkerFooter ∈ sampleCommits ∧
    parseHeader (firstLine sampleMarkerFooter.Message.data) =
      some { typeToken := "feat", scope := "", breaking := true,
             description := "my first break " } ∧
    footerTextIs sampleMarkerFooter.Message " hey from the change".data ∧
    (∀ a ∈ Analyze sampleRules sampleCommits "major", a.Commit = sampleMarkerFooter →
      isTrimOf a.ParsedMessage "my first break ".data ∧
      isTrimOf a.ParsedBreakingChangeMessage " hey from the change".data) ∧
    Analyze sampleRules sampleCommits "major" = expectedFooterMajor :=
  have hnone : ¬ hasBreakingFooter sampleMarkerOnly.Message :=
    not_hasBreakingFooter_of_no_newline _ (by decide)
  have htext : footerTextIs sampleMarkerFooter.Message " hey from the change".data :=
    ⟨"feat!: my first break \n".data, by decide, no_footer_line_of_no_B _ (by decide)⟩
  ⟨by decide, by decide, hnone,
    fun a ha =>
      ((marker_breaking_messages sampleRules [sampleMarkerOnly] sampleMarkerOnly
        { typeToken := "feat", scope := "", breaking := true,
          description := "my first break" }
        (by decide) (by decide) (by decide) rfl).2 "major" a ha
        (by
          have hall : ∀ b ∈ Analyze sampleRules [sampleMarkerOnly] "major",
              b.Commit = sampleMarkerOnly := by decide
          exact hall a ha)).1 hnone,
    by decide, by decide, by decide, htext,
    fun a ha hc =>
      ((marker_breaking_messages sampleRules sampleCommits sampleMarkerFooter
        { typeToken := "feat", scope := "", breaking := true,
          description := "my first break " }
        (by decide) (by decide) (by decide) rfl).2 "major" a ha hc).2
        " hey from the change".data htext,
    by decide⟩

end SemanticRelease
